import Mathlib

/-!
Verification development for the real-time notification fan-out subsystem of
the Trinetra-Sec backend.

The definitions below are a shallow embedding of
`Backend/services/notifications/websocket_manager.py` (class `WebSocketManager`
and the dataclass `WebSocketClient`) and of the receive-loop frame handler in
`Backend/routes/websocket.py` (`websocket_endpoint`).

Modelling conventions:
- Python dicts are modelled as association lists `List (String × α)` with
  first-match lookup (`lookupA`), in-place update of an existing key
  (`insertA`, which appends when the key is absent, matching dict insertion
  order), and key deletion (`eraseA`).
- Python sets of strings are modelled as `List String` with membership-guarded
  insertion (`insertS`) and `filter`-based removal, so duplicates never arise.
- A transport handle (`websocket`) is modelled by `Ws`: `ok` says whether a
  write succeeds (`send_json`'s `try`/`except` returns `False` exactly when
  the write raises), and `sent` records the frames successfully written.
- The code runs on a single-threaded asyncio event loop and every registry
  mutation happens under `self.lock` without intervening awaits, so operations
  are modelled as atomic state transformers; `async` plumbing and the lock
  itself have no observable effect in this sequential semantics.
-/

/-- A serialized frame written to one client's transport. The constructors
mirror the `Notification` values the source actually sends; externally
supplied notifications are carried opaquely by `note`. -/
inductive Msg where
  | connected (client_id : String)
  | userJoined (user_id client_id : String)
  | userLeft (user_id client_id : String)
  | pong
  | subscriptionUpdated (groups : List String)
  | error (message : String)
  | note (payload : String)
deriving DecidableEq

/-- Transport handle state: `ok` tells whether `websocket.send_json` succeeds,
`sent` is the list of frames successfully delivered to this client. -/
structure Ws where
  ok : Bool
  sent : List Msg
deriving DecidableEq

/-- `WebSocketClient.send_json`: on a live transport the frame is written and
`True` is returned; on a broken transport the exception is caught and `False`
is returned (websocket_manager.py lines 78-85). -/
def wsSend (w : Ws) (m : Msg) : Bool × Ws :=
  if w.ok then (true, { w with sent := w.sent ++ [m] }) else (false, w)

/-- The dataclass `WebSocketClient` (websocket_manager.py lines 68-76).
`connection_type` is kept as an opaque optional string; it is never consulted
by the registry operations. -/
structure Client where
  ws : Ws
  client_id : String
  user_id : Option String
  connection_type : Option String
  scan_id : Option String
  groups : List String
deriving DecidableEq

/-- First-match lookup in an association list, the model of `d[k]` /
`d.get(k)` on a Python dict. -/
def lookupA {α : Type} : List (String × α) → String → Option α
  | [], _ => none
  | p :: t, k => if p.1 = k then some p.2 else lookupA t k

/-- The model of `d[k] = v` on a Python dict: replace the value of an existing
key in place, append a fresh key at the end (dicts preserve insertion order). -/
def insertA {α : Type} : List (String × α) → String → α → List (String × α)
  | [], k, v => [(k, v)]
  | p :: t, k, v => if p.1 = k then (k, v) :: t else p :: insertA t k v

/-- The model of `del d[k]` / `d.pop(k, None)` on a Python dict. -/
def eraseA {α : Type} : List (String × α) → String → List (String × α)
  | [], _ => []
  | p :: t, k => if p.1 = k then eraseA t k else p :: eraseA t k

/-- In-place mutation of the value stored under a key (the aliasing of a
stored `WebSocketClient` object that Python mutates through a reference). -/
def updateAt {α : Type} : List (String × α) → String → (α → α) → List (String × α)
  | [], _, _ => []
  | p :: t, k, f => if p.1 = k then (p.1, f p.2) :: updateAt t k f else p :: updateAt t k f

/-- Python `set.add`: insert unless already present. -/
def insertS (l : List String) (x : String) : List String :=
  if x ∈ l then l else l ++ [x]

/-- Python `set(xs)` built from a list: deduplicate, keeping first occurrences. -/
def dedupS (gs : List String) : List String :=
  gs.foldl insertS []

/-- Read a secondary index entry: `d.get(k, set())`. -/
def idxLookup (m : List (String × List String)) (k : String) : List String :=
  (lookupA m k).getD []

/-- The idiom `if k not in d: d[k] = set()` followed by `d[k].add(x)` used by
`connect` and the subscribe handler. -/
def idxAdd (m : List (String × List String)) (k x : String) : List (String × List String) :=
  match lookupA m k with
  | none => m ++ [(k, [x])]
  | some l => insertA m k (insertS l x)

/-- The idiom `if k in d: d[k].discard(x); if not d[k]: del d[k]` used by
`disconnect` and the unsubscribe handler. -/
def idxDiscardDel (m : List (String × List String)) (k x : String) : List (String × List String) :=
  match lookupA m k with
  | none => m
  | some l =>
    let l2 := l.filter (fun y => !(y == x))
    if l2 = [] then eraseA m k else insertA m k l2

/-- The registry state of `WebSocketManager.__init__` (websocket_manager.py
lines 115-121): the primary map and the three secondary indexes. The
`asyncio.Lock` has no observable content in this sequential embedding. -/
structure WebSocketManager where
  active_connections : List (String × Client)
  user_connections : List (String × List String)
  scan_connections : List (String × List String)
  group_connections : List (String × List String)
deriving DecidableEq

/-- A freshly constructed manager: all maps empty. -/
def initManager : WebSocketManager :=
  ⟨[], [], [], []⟩

/-- `WebSocketManager.send_to_client` (lines 253-268): look up the client,
return `False` if absent, otherwise attempt the write on its transport. The
mutation of the stored client's transport is the in-place `insertA`. -/
def send_to_client (s : WebSocketManager) (cid : String) (n : Msg) :
    WebSocketManager × Bool :=
  match lookupA s.active_connections cid with
  | none => (s, false)
  | some c =>
    let r := wsSend c.ws n
    ({ s with active_connections := insertA s.active_connections cid { c with ws := r.2 } }, r.1)

/-- One iteration of the loops in `send_to_user` / `send_to_scan` /
`send_to_group` (lines 286-288 etc.): send and append the bare boolean. -/
def sendAccum (n : Msg) (acc : WebSocketManager × List Bool) (cid : String) :
    WebSocketManager × List Bool :=
  let r := send_to_client acc.1 cid n
  (r.1, acc.2 ++ [r.2])

/-- `WebSocketManager.send_to_user` (lines 270-290): iterate over the copied
id set for this user and collect a bare list of booleans. -/
def send_to_user (s : WebSocketManager) (uid : String) (n : Msg) :
    WebSocketManager × List Bool :=
  (idxLookup s.user_connections uid).foldl (sendAccum n) (s, [])

/-- `WebSocketManager.send_to_scan` (lines 292-312). -/
def send_to_scan (s : WebSocketManager) (t : String) (n : Msg) :
    WebSocketManager × List Bool :=
  (idxLookup s.scan_connections t).foldl (sendAccum n) (s, [])

/-- `WebSocketManager.send_to_group` (lines 314-334). -/
def send_to_group (s : WebSocketManager) (g : String) (n : Msg) :
    WebSocketManager × List Bool :=
  (idxLookup s.group_connections g).foldl (sendAccum n) (s, [])

/-- The user-exclusion test of `broadcast` (line 369): `client.user_id and
client.user_id in exclude_user_ids` — an empty-string user id is falsy and is
therefore never excluded. -/
def userExcluded (c : Client) (exU : List String) : Bool :=
  match c.user_id with
  | none => false
  | some u => !(u == "") && decide (u ∈ exU)

/-- One iteration of the `broadcast` loop (lines 360-374): re-look up the
client, skip missing or excluded clients, otherwise send and record the
per-client result under its id. -/
def bstep (n : Msg) (exC exU : List String) (acc : WebSocketManager × List (String × Bool))
    (cid : String) : WebSocketManager × List (String × Bool) :=
  match lookupA acc.1.active_connections cid with
  | none => acc
  | some c =>
    if cid ∈ exC then acc
    else if userExcluded c exU then acc
    else
      let r := wsSend c.ws n
      ({ acc.1 with active_connections := insertA acc.1.active_connections cid { c with ws := r.2 } },
        acc.2 ++ [(cid, r.1)])

/-- `WebSocketManager.broadcast` (lines 336-376): snapshot the key list, then
send to every non-excluded client, returning a per-client result map. -/
def broadcast (s : WebSocketManager) (n : Msg) (exC exU : List String) :
    WebSocketManager × List (String × Bool) :=
  (s.active_connections.map Prod.fst).foldl (bstep n exC exU) (s, [])

/-- The index registration guarded by Python truthiness (`if user_id:` /
`if scan_id:` in `connect`, lines 164-173): `None` and `""` are both falsy. -/
def optIdxAdd (m : List (String × List String)) (oid : Option String) (cid : String) :
    List (String × List String) :=
  match oid with
  | none => m
  | some u => if u = "" then m else idxAdd m u cid

/-- The index scrub guarded by Python truthiness (`if user_id and user_id in
self.user_connections:` etc. in `disconnect`, lines 224-233). -/
def optIdxDiscard (m : List (String × List String)) (oid : Option String) (cid : String) :
    List (String × List String) :=
  match oid with
  | none => m
  | some u => if u = "" then m else idxDiscardDel m u cid

/-- The loop `for group in client.groups: group_connections[group].add(cid)`
in `connect` (lines 176-179). -/
def groupIdxAddAll (m : List (String × List String)) (gs : List String) (cid : String) :
    List (String × List String) :=
  gs.foldl (fun m g => idxAdd m g cid) m

/-- The loop scrubbing the group index in `disconnect` (lines 236-240). -/
def groupIdxDiscardAll (m : List (String × List String)) (gs : List String) (cid : String) :
    List (String × List String) :=
  gs.foldl (fun m g => idxDiscardDel m g cid) m

/-- The tail of `connect` (lines 184-197): the confirmation frame sent to the
new client, then — for a (truthy) authenticated user — the `user_joined`
broadcast excluding the new client itself. -/
def postConnectSends (s : WebSocketManager) (uid : Option String) (cid : String) :
    WebSocketManager :=
  let s5 := (send_to_client s cid (Msg.connected cid)).1
  match uid with
  | none => s5
  | some u => if u = "" then s5 else (broadcast s5 (Msg.userJoined u cid) [cid] []).1

/-- `WebSocketManager.connect` (lines 123-199): build the client (its `groups`
is `set(groups or [])`), register it in the primary map and every implied
secondary index, then emit the confirmation and `user_joined` notifications.
The four index fields are touched by disjoint sequential statements under one
lock acquisition, so they are written here as one simultaneous record update. -/
def connect (s : WebSocketManager) (w : Ws) (cid : String) (uid ct sid : Option String)
    (gs : List String) : WebSocketManager :=
  let client : Client := ⟨w, cid, uid, ct, sid, dedupS gs⟩
  postConnectSends
    { active_connections := insertA s.active_connections cid client
      user_connections := optIdxAdd s.user_connections uid cid
      scan_connections := optIdxAdd s.scan_connections sid cid
      group_connections := groupIdxAddAll s.group_connections client.groups cid }
    uid cid

/-- The tail of `disconnect` (lines 245-251): the best-effort `user_left`
broadcast for a (truthy) authenticated user. -/
def postDisconnectSend (s : WebSocketManager) (uid : Option String) (cid : String) :
    WebSocketManager :=
  match uid with
  | none => s
  | some u => if u = "" then s else (broadcast s (Msg.userLeft u cid) [] []).1

/-- The transport close performed by `disconnect` before scrubbing
(`client.close()`, line 217): the handle goes dead. -/
def closeClient (c : Client) : Client :=
  { c with ws := { c.ws with ok := false } }

/-- `WebSocketManager.disconnect` (lines 201-251): a missing id returns
immediately; otherwise close the transport, remove the entry from the primary
map, scrub every secondary index entry implied by the client's attributes
(deleting index keys that become empty), and broadcast `user_left`. -/
def disconnect (s : WebSocketManager) (cid : String) : WebSocketManager :=
  match lookupA s.active_connections cid with
  | none => s
  | some client =>
    postDisconnectSend
      { active_connections := eraseA (updateAt s.active_connections cid closeClient) cid
        user_connections := optIdxDiscard s.user_connections client.user_id cid
        scan_connections := optIdxDiscard s.scan_connections client.scan_id cid
        group_connections := groupIdxDiscardAll s.group_connections client.groups cid }
      client.user_id cid

/-- The per-group body of the subscribe handler in `websocket_endpoint`
(routes/websocket.py lines 146-152), iterated over the requested groups:
`client.groups` is the group set of the client object captured at connect
(passed here as `cg`), and `group_connections` is mutated directly on the
global manager — with no check that `cid` is still registered. -/
def routeSubscribeIdx :
    List (String × List String) → String → List String → List String →
    List (String × List String) × List String
  | m, _, cg, [] => (m, cg)
  | m, cid, cg, g :: rest =>
    if g ∈ cg then routeSubscribeIdx m cid cg rest
    else routeSubscribeIdx (idxAdd m g cid) cid (cg ++ [g]) rest

/-- The per-group body of the unsubscribe handler (routes/websocket.py lines
167-174): remove held groups from the captured set and scrub the index,
deleting index keys that become empty. -/
def routeUnsubscribeIdx :
    List (String × List String) → String → List String → List String →
    List (String × List String) × List String
  | m, _, cg, [] => (m, cg)
  | m, cid, cg, g :: rest =>
    if g ∈ cg then
      routeUnsubscribeIdx (idxDiscardDel m g cid) cid (cg.filter (fun y => !(y == g))) rest
    else routeUnsubscribeIdx m cid cg rest

/-- The subscribe control frame as a registry operation. While the connection
is registered, the `client` object captured by the route aliases the object
stored under `cid` in `active_connections`, so its groups are read from and
written back to the stored entry; afterwards the route answers with the full
group set. (The unregistered case, in which the route still mutates the
shared `group_connections`, is modelled by `routeSubscribeIdx` directly.) -/
def subscribeStep (s : WebSocketManager) (cid : String) (gs : List String) :
    WebSocketManager :=
  match lookupA s.active_connections cid with
  | none => s
  | some c =>
    let r := routeSubscribeIdx s.group_connections cid c.groups gs
    let s2 : WebSocketManager :=
      { s with
        group_connections := r.1
        active_connections := updateAt s.active_connections cid (fun c0 => { c0 with groups := r.2 }) }
    (send_to_client s2 cid (Msg.subscriptionUpdated r.2)).1

/-- The unsubscribe control frame as a registry operation, dual to
`subscribeStep` (routes/websocket.py lines 163-182). -/
def unsubscribeStep (s : WebSocketManager) (cid : String) (gs : List String) :
    WebSocketManager :=
  match lookupA s.active_connections cid with
  | none => s
  | some c =>
    let r := routeUnsubscribeIdx s.group_connections cid c.groups gs
    let s2 : WebSocketManager :=
      { s with
        group_connections := r.1
        active_connections := updateAt s.active_connections cid (fun c0 => { c0 with groups := r.2 }) }
    (send_to_client s2 cid (Msg.subscriptionUpdated r.2)).1

/-- One client-sent frame as parsed by the receive loop of
`websocket_endpoint` (routes/websocket.py lines 122-215): `malformed` is a
frame rejected by `json.loads`; `other` is valid JSON whose `type` matches no
handled branch and falls through silently. -/
inductive Frame where
  | malformed
  | ping
  | subscribe (gs : List String)
  | unsubscribe (gs : List String)
  | other
deriving DecidableEq

/-- The body of the receive loop of `websocket_endpoint` for one frame:
ping is answered with a pong, subscribe/unsubscribe run the group update and
answer `subscription_updated`, a malformed frame is answered with exactly one
`error` notification (lines 194-202), and nothing is closed or unregistered. -/
def handleFrame (s : WebSocketManager) (cid : String) : Frame → WebSocketManager
  | Frame.ping => (send_to_client s cid Msg.pong).1
  | Frame.subscribe gs => subscribeStep s cid gs
  | Frame.unsubscribe gs => unsubscribeStep s cid gs
  | Frame.malformed => (send_to_client s cid (Msg.error "Invalid JSON format")).1
  | Frame.other => s

/-- The manager operations a client session can trigger: registration with
the connect-time attributes, unregistration, and the two group-update frames. -/
inductive Op where
  | connect (w : Ws) (cid : String) (uid ct sid : Option String) (gs : List String)
  | disconnect (cid : String)
  | subscribe (cid : String) (gs : List String)
  | unsubscribe (cid : String) (gs : List String)
deriving DecidableEq

/-- Interpretation of one operation on the manager state. -/
def runOp (s : WebSocketManager) : Op → WebSocketManager
  | Op.connect w cid uid ct sid gs => connect s w cid uid ct sid gs
  | Op.disconnect cid => disconnect s cid
  | Op.subscribe cid gs => subscribeStep s cid gs
  | Op.unsubscribe cid gs => unsubscribeStep s cid gs

/-- Run a finite sequence of operations. -/
def runOps (s : WebSocketManager) (ops : List Op) : WebSocketManager :=
  ops.foldl runOp s

/-- Well-formedness of a single operation: a `connect` must carry a client id
that is not currently registered (the source generates ids by `uuid4`, making
collisions with a live connection effectively impossible). -/
def wfOp (s : WebSocketManager) : Op → Bool
  | Op.connect _ cid _ _ _ _ => (lookupA s.active_connections cid).isNone
  | _ => true

/-- Well-formedness of an operation sequence, checked against the evolving
state. -/
def wfOps : WebSocketManager → List Op → Bool
  | _, [] => true
  | s, op :: rest => wfOp s op && wfOps (runOp s op) rest

/-- The registry invariant exactly as claimed: a client id sits in
`group_connections[g]` iff it names an active connection holding group `g`,
and every id under `user_connections[u]` (resp. `scan_connections[t]`) names
an active connection with that `user_id` (resp. `scan_id`). -/
def RegistryInv (s : WebSocketManager) : Prop :=
  (∀ g cid, cid ∈ idxLookup s.group_connections g ↔
    ∃ c, lookupA s.active_connections cid = some c ∧ g ∈ c.groups) ∧
  (∀ u cid, cid ∈ idxLookup s.user_connections u →
    ∃ c, lookupA s.active_connections cid = some c ∧ c.user_id = some u) ∧
  (∀ t cid, cid ∈ idxLookup s.scan_connections t →
    ∃ c, lookupA s.active_connections cid = some c ∧ c.scan_id = some t)

/-- Strengthened induction invariant: additionally, indexed user/scan keys
are never the (falsy, hence never-registered) empty string. -/
def RegistryInvS (s : WebSocketManager) : Prop :=
  (∀ g cid, cid ∈ idxLookup s.group_connections g ↔
    ∃ c, lookupA s.active_connections cid = some c ∧ g ∈ c.groups) ∧
  (∀ u cid, cid ∈ idxLookup s.user_connections u →
    u ≠ "" ∧ ∃ c, lookupA s.active_connections cid = some c ∧ c.user_id = some u) ∧
  (∀ t cid, cid ∈ idxLookup s.scan_connections t →
    t ≠ "" ∧ ∃ c, lookupA s.active_connections cid = some c ∧ c.scan_id = some t)

/-- No secondary index key maps to an empty set. -/
def NoEmptyInv (s : WebSocketManager) : Prop :=
  (∀ p ∈ s.user_connections, p.2 ≠ []) ∧
  (∀ p ∈ s.scan_connections, p.2 ≠ []) ∧
  (∀ p ∈ s.group_connections, p.2 ≠ [])

/-- The attributes of a stored client that the registry invariants read:
everything except the transport write log. -/
def coreOk (c : Client) :
    String × Option String × Option String × Option String × List String × Bool :=
  (c.client_id, c.user_id, c.connection_type, c.scan_id, c.groups, c.ws.ok)

/-- `t` differs from `s` at most in the `sent` logs of stored transports:
all indexes agree and every primary-map lookup agrees up to `coreOk`. -/
def wsOnly (s t : WebSocketManager) : Prop :=
  t.user_connections = s.user_connections ∧
  t.scan_connections = s.scan_connections ∧
  t.group_connections = s.group_connections ∧
  ∀ x, (lookupA t.active_connections x).map coreOk =
       (lookupA s.active_connections x).map coreOk

/-- The delivery outcome `send_to_client` reports for a given id in a given
state: false for an absent client, otherwise the health of its transport. -/
def outcomeOf (s : WebSocketManager) (cid : String) : Bool :=
  match lookupA s.active_connections cid with
  | none => false
  | some c => c.ws.ok

/-- Whether the broadcast loop sends to a given id in a given state. -/
def keepB (exC exU : List String) (s : WebSocketManager) (cid : String) : Bool :=
  match lookupA s.active_connections cid with
  | none => false
  | some c => !(decide (cid ∈ exC)) && !(userExcluded c exU)

/-- The frames successfully delivered so far to a given client. -/
def sentOf (s : WebSocketManager) (cid : String) : List Msg :=
  match lookupA s.active_connections cid with
  | none => []
  | some c => c.ws.sent

/-! ### Association-list and index lemmas -/

theorem lookupA_insertA {α : Type} (m : List (String × α)) (k : String) (v : α) (x : String) :
    lookupA (insertA m k v) x = if x = k then some v else lookupA m x := by
  induction m with
  | nil =>
    by_cases h : x = k
    · subst h; simp [insertA, lookupA]
    · have h' : ¬ k = x := fun hh => h hh.symm
      simp [insertA, lookupA, h, h']
  | cons p t ih =>
    by_cases hp : p.1 = k
    · by_cases h : x = k
      · subst h; simp [insertA, lookupA, hp]
      · have h' : ¬ k = x := fun hh => h hh.symm
        have hpx : ¬ p.1 = x := fun hh => h' (hp ▸ hh)
        simp [insertA, lookupA, hp, h, h', hpx]
    · by_cases hpx : p.1 = x
      · have h : ¬ x = k := fun hh => hp (by rw [hpx, hh])
        simp [insertA, lookupA, hp, hpx, h]
      · simp [insertA, lookupA, hp, hpx, ih]

theorem lookupA_eraseA {α : Type} (m : List (String × α)) (k x : String) :
    lookupA (eraseA m k) x = if x = k then none else lookupA m x := by
  induction m with
  | nil => simp [eraseA, lookupA]
  | cons p t ih =>
    by_cases hp : p.1 = k
    · by_cases h : x = k
      · subst h; simp [eraseA, lookupA, hp, ih]
      · have hpx : ¬ p.1 = x := fun hh => h (by rw [← hh, hp])
        have hkx : ¬ k = x := fun hh => hpx (by rw [hp, hh])
        simp [eraseA, lookupA, hp, h, hpx, hkx, ih]
    · by_cases hpx : p.1 = x
      · have h : ¬ x = k := fun hh => hp (by rw [hpx, hh])
        simp [eraseA, lookupA, hp, hpx, h]
      · simp [eraseA, lookupA, hp, hpx, ih]

theorem lookupA_updateAt {α : Type} (m : List (String × α)) (k : String) (f : α → α)
    (x : String) :
    lookupA (updateAt m k f) x =
      if x = k then (lookupA m k).map f else lookupA m x := by
  induction m with
  | nil => by_cases h : x = k <;> simp [updateAt, lookupA, h]
  | cons p t ih =>
    by_cases hp : p.1 = k
    · by_cases h : x = k
      · subst h; simp [updateAt, lookupA, hp]
      · have hpx : ¬ p.1 = x := fun hh => h (by rw [← hh, hp])
        have hkx : ¬ k = x := fun hh => hpx (by rw [hp, hh])
        simp [updateAt, lookupA, hp, h, hpx, hkx, ih]
    · by_cases hpx : p.1 = x
      · have h : ¬ x = k := fun hh => hp (by rw [hpx, hh])
        simp [updateAt, lookupA, hp, hpx, h]
      · simp [updateAt, lookupA, hp, hpx, ih]

theorem eraseA_updateAt {α : Type} (m : List (String × α)) (k : String) (f : α → α) :
    eraseA (updateAt m k f) k = eraseA m k := by
  induction m with
  | nil => simp [updateAt, eraseA]
  | cons p t ih =>
    by_cases hp : p.1 = k <;> simp [updateAt, eraseA, hp, ih]

theorem lookupA_append {α : Type} (m m2 : List (String × α)) (x : String) :
    lookupA (m ++ m2) x = (lookupA m x).or (lookupA m2 x) := by
  induction m with
  | nil => simp [lookupA]
  | cons p t ih =>
    by_cases hp : p.1 = x <;> simp [lookupA, hp, ih]

theorem mem_insertS (l : List String) (x y : String) :
    y ∈ insertS l x ↔ y ∈ l ∨ y = x := by
  by_cases h : x ∈ l
  · simp only [insertS, if_pos h]
    constructor
    · exact Or.inl
    · rintro (hy | rfl)
      · exact hy
      · exact h
  · simp [insertS, h]

theorem insertS_ne_nil (l : List String) (x : String) : insertS l x ≠ [] := by
  by_cases h : x ∈ l
  · simpa [insertS, h] using List.ne_nil_of_mem h
  · simp [insertS, h]

theorem mem_insertA {α : Type} (m : List (String × α)) (k : String) (v : α)
    (p : String × α) (hp : p ∈ insertA m k v) : p = (k, v) ∨ p ∈ m := by
  induction m with
  | nil =>
    simp only [insertA, List.mem_singleton] at hp
    exact Or.inl hp
  | cons q t ih =>
    by_cases hq : q.1 = k
    · simp only [insertA, if_pos hq, List.mem_cons] at hp
      rcases hp with h | h
      · exact Or.inl h
      · exact Or.inr (List.mem_cons_of_mem _ h)
    · simp only [insertA, if_neg hq, List.mem_cons] at hp
      rcases hp with h | h
      · exact Or.inr (h ▸ List.mem_cons_self _ _)
      · rcases ih h with h2 | h2
        · exact Or.inl h2
        · exact Or.inr (List.mem_cons_of_mem _ h2)

theorem mem_eraseA {α : Type} (m : List (String × α)) (k : String)
    (p : String × α) (hp : p ∈ eraseA m k) : p ∈ m := by
  induction m with
  | nil => simp [eraseA] at hp
  | cons q t ih =>
    by_cases hq : q.1 = k
    · simp only [eraseA, if_pos hq] at hp
      exact List.mem_cons_of_mem _ (ih hp)
    · simp only [eraseA, if_neg hq, List.mem_cons] at hp
      rcases hp with h | h
      · exact h ▸ List.mem_cons_self _ _
      · exact List.mem_cons_of_mem _ (ih h)

theorem mem_idxAdd (m : List (String × List String)) (k x g y : String) :
    y ∈ idxLookup (idxAdd m k x) g ↔ y ∈ idxLookup m g ∨ (g = k ∧ y = x) := by
  unfold idxAdd
  cases h : lookupA m k with
  | none =>
    by_cases hg : g = k
    · subst hg
      simp [idxLookup, lookupA_append, h, lookupA]
    · have hg' : ¬ k = g := fun hh => hg hh.symm
      simp only [idxLookup, lookupA_append, lookupA, if_neg hg']
      cases lookupA m g <;> simp [hg, Option.or]
  | some l =>
    by_cases hg : g = k
    · subst hg
      simp [idxLookup, lookupA_insertA, h, mem_insertS]
    · simp [idxLookup, lookupA_insertA, hg]

theorem mem_idxDiscardDel (m : List (String × List String)) (k x g y : String) :
    y ∈ idxLookup (idxDiscardDel m k x) g ↔ y ∈ idxLookup m g ∧ ¬(g = k ∧ y = x) := by
  unfold idxDiscardDel
  cases h : lookupA m k with
  | none =>
    by_cases hg : g = k
    · subst hg
      simp [idxLookup, h]
    · simp [idxLookup, hg]
  | some l =>
    simp only [h]
    have hfil : ∀ z, z ∈ l.filter (fun y0 => !(y0 == x)) ↔ z ∈ l ∧ ¬ z = x := by
      intro z
      simp [List.mem_filter]
    split
    · rename_i hnil
      have hlx : ∀ z ∈ l, z = x := by
        intro z hz
        by_contra hzx
        have hmem : z ∈ l.filter (fun y0 => !(y0 == x)) := (hfil z).2 ⟨hz, hzx⟩
        rw [hnil] at hmem
        exact List.not_mem_nil z hmem
      by_cases hg : g = k
      · subst hg
        refine iff_of_false ?_ ?_
        · simp [idxLookup, lookupA_eraseA]
        · rintro ⟨hy, hne⟩
          rw [idxLookup, h] at hy
          exact hne ⟨rfl, hlx y (by simpa using hy)⟩
      · simp [idxLookup, lookupA_eraseA, hg]
    · rename_i hnil
      by_cases hg : g = k
      · subst hg
        simp only [idxLookup, lookupA_insertA, if_pos, h, Option.getD_some]
        rw [hfil y]
        tauto
      · simp [idxLookup, lookupA_insertA, hg]

theorem idxAdd_noEmpty (m : List (String × List String)) (k x : String)
    (h : ∀ p ∈ m, p.2 ≠ []) : ∀ p ∈ idxAdd m k x, p.2 ≠ [] := by
  intro p hp
  unfold idxAdd at hp
  cases hl : lookupA m k with
  | none =>
    rw [hl] at hp
    rcases List.mem_append.1 hp with h1 | h1
    · exact h p h1
    · simp only [List.mem_singleton] at h1
      subst h1
      simp
  | some l =>
    rw [hl] at hp
    rcases mem_insertA _ _ _ _ hp with h1 | h1
    · subst h1
      exact insertS_ne_nil l x
    · exact h p h1

theorem idxDiscardDel_noEmpty (m : List (String × List String)) (k x : String)
    (h : ∀ p ∈ m, p.2 ≠ []) : ∀ p ∈ idxDiscardDel m k x, p.2 ≠ [] := by
  intro p hp
  unfold idxDiscardDel at hp
  cases hl : lookupA m k with
  | none =>
    rw [hl] at hp
    exact h p hp
  | some l =>
    rw [hl] at hp
    simp only [] at hp
    split at hp
    · exact h p (mem_eraseA _ _ _ hp)
    · rename_i hnil
      rcases mem_insertA _ _ _ _ hp with h1 | h1
      · subst h1
        exact hnil
      · exact h p h1

theorem mem_groupIdxAddAll (gs : List String) (m : List (String × List String))
    (cid g y : String) :
    y ∈ idxLookup (groupIdxAddAll m gs cid) g ↔
      y ∈ idxLookup m g ∨ (y = cid ∧ g ∈ gs) := by
  induction gs generalizing m with
  | nil => simp [groupIdxAddAll]
  | cons a rest ih =>
    simp only [groupIdxAddAll, List.foldl_cons] at *
    rw [ih (idxAdd m a cid)]
    rw [mem_idxAdd]
    simp only [List.mem_cons]
    constructor
    · rintro ((hy | ⟨rfl, rfl⟩) | ⟨rfl, hr⟩)
      · exact Or.inl hy
      · exact Or.inr ⟨rfl, Or.inl rfl⟩
      · exact Or.inr ⟨rfl, Or.inr hr⟩
    · rintro (hy | ⟨rfl, (rfl | hr)⟩)
      · exact Or.inl (Or.inl hy)
      · exact Or.inl (Or.inr ⟨rfl, rfl⟩)
      · exact Or.inr ⟨rfl, hr⟩

theorem mem_groupIdxDiscardAll (gs : List String) (m : List (String × List String))
    (cid g y : String) :
    y ∈ idxLookup (groupIdxDiscardAll m gs cid) g ↔
      y ∈ idxLookup m g ∧ ¬(y = cid ∧ g ∈ gs) := by
  induction gs generalizing m with
  | nil => simp [groupIdxDiscardAll]
  | cons a rest ih =>
    simp only [groupIdxDiscardAll, List.foldl_cons] at *
    rw [ih (idxDiscardDel m a cid)]
    rw [mem_idxDiscardDel]
    simp only [List.mem_cons]
    constructor
    · rintro ⟨⟨hy, hna⟩, hnr⟩
      refine ⟨hy, ?_⟩
      rintro ⟨rfl, (rfl | hr)⟩
      · exact hna ⟨rfl, rfl⟩
      · exact hnr ⟨rfl, hr⟩
    · rintro ⟨hy, hn⟩
      refine ⟨⟨hy, ?_⟩, ?_⟩
      · rintro ⟨rfl, rfl⟩
        exact hn ⟨rfl, Or.inl rfl⟩
      · rintro ⟨rfl, hr⟩
        exact hn ⟨rfl, Or.inr hr⟩

theorem groupIdxAddAll_noEmpty (gs : List String) (m : List (String × List String))
    (cid : String) (h : ∀ p ∈ m, p.2 ≠ []) :
    ∀ p ∈ groupIdxAddAll m gs cid, p.2 ≠ [] := by
  induction gs generalizing m with
  | nil => exact h
  | cons a rest ih =>
    simp only [groupIdxAddAll, List.foldl_cons] at *
    exact ih (idxAdd m a cid) (idxAdd_noEmpty m a cid h)

theorem groupIdxDiscardAll_noEmpty (gs : List String) (m : List (String × List String))
    (cid : String) (h : ∀ p ∈ m, p.2 ≠ []) :
    ∀ p ∈ groupIdxDiscardAll m gs cid, p.2 ≠ [] := by
  induction gs generalizing m with
  | nil => exact h
  | cons a rest ih =>
    simp only [groupIdxDiscardAll, List.foldl_cons] at *
    exact ih (idxDiscardDel m a cid) (idxDiscardDel_noEmpty m a cid h)

theorem mem_optIdxAdd (m : List (String × List String)) (oid : Option String)
    (cid u y : String) :
    y ∈ idxLookup (optIdxAdd m oid cid) u ↔
      y ∈ idxLookup m u ∨ (oid = some u ∧ u ≠ "" ∧ y = cid) := by
  cases oid with
  | none => simp [optIdxAdd]
  | some v =>
    by_cases hv : v = ""
    · subst hv
      simp only [optIdxAdd, if_pos rfl]
      constructor
      · exact Or.inl
      · rintro (hy | ⟨hu, hne, rfl⟩)
        · exact hy
        · exact absurd (Option.some.inj hu).symm hne
    · simp only [optIdxAdd, if_neg hv]
      rw [mem_idxAdd]
      constructor
      · rintro (hy | ⟨rfl, rfl⟩)
        · exact Or.inl hy
        · exact Or.inr ⟨rfl, hv, rfl⟩
      · rintro (hy | ⟨hu, hne, rfl⟩)
        · exact Or.inl hy
        · rcases Option.some.inj hu with rfl
          exact Or.inr ⟨rfl, rfl⟩

theorem mem_optIdxDiscard (m : List (String × List String)) (oid : Option String)
    (cid u y : String) :
    y ∈ idxLookup (optIdxDiscard m oid cid) u ↔
      y ∈ idxLookup m u ∧ ¬(oid = some u ∧ u ≠ "" ∧ y = cid) := by
  cases oid with
  | none => simp [optIdxDiscard]
  | some v =>
    by_cases hv : v = ""
    · subst hv
      simp only [optIdxDiscard, if_pos rfl]
      constructor
      · intro hy
        refine ⟨hy, ?_⟩
        rintro ⟨hu, hne, rfl⟩
        exact hne (Option.some.inj hu).symm
      · exact And.left
    · simp only [optIdxDiscard, if_neg hv]
      rw [mem_idxDiscardDel]
      constructor
      · rintro ⟨hy, hn⟩
        refine ⟨hy, ?_⟩
        rintro ⟨hu, hne, rfl⟩
        rcases Option.some.inj hu with rfl
        exact hn ⟨rfl, rfl⟩
      · rintro ⟨hy, hn⟩
        refine ⟨hy, ?_⟩
        rintro ⟨rfl, rfl⟩
        exact hn ⟨rfl, hv, rfl⟩

theorem optIdxAdd_noEmpty (m : List (String × List String)) (oid : Option String)
    (cid : String) (h : ∀ p ∈ m, p.2 ≠ []) : ∀ p ∈ optIdxAdd m oid cid, p.2 ≠ [] := by
  cases oid with
  | none => exact h
  | some v =>
    by_cases hv : v = ""
    · simpa [optIdxAdd, hv] using h
    · simpa [optIdxAdd, hv] using idxAdd_noEmpty m v cid h

theorem optIdxDiscard_noEmpty (m : List (String × List String)) (oid : Option String)
    (cid : String) (h : ∀ p ∈ m, p.2 ≠ []) : ∀ p ∈ optIdxDiscard m oid cid, p.2 ≠ [] := by
  cases oid with
  | none => exact h
  | some v =>
    by_cases hv : v = ""
    · simpa [optIdxDiscard, hv] using h
    · simpa [optIdxDiscard, hv] using idxDiscardDel_noEmpty m v cid h

theorem routeSub_idx_mem (gs : List String) (m : List (String × List String))
    (cid : String) (cg : List String) (g y : String) :
    y ∈ idxLookup (routeSubscribeIdx m cid cg gs).1 g ↔
      y ∈ idxLookup m g ∨ (y = cid ∧ g ∈ gs ∧ g ∉ cg) := by
  induction gs generalizing m cg with
  | nil => simp [routeSubscribeIdx]
  | cons a rest ih =>
    by_cases ha : a ∈ cg
    · simp only [routeSubscribeIdx, if_pos ha]
      rw [ih]
      simp only [List.mem_cons]
      constructor
      · rintro (hy | ⟨rfl, hr, hncg⟩)
        · exact Or.inl hy
        · exact Or.inr ⟨rfl, Or.inr hr, hncg⟩
      · rintro (hy | ⟨rfl, (rfl | hr), hncg⟩)
        · exact Or.inl hy
        · exact absurd ha hncg
        · exact Or.inr ⟨rfl, hr, hncg⟩
    · simp only [routeSubscribeIdx, if_neg ha]
      rw [ih]
      rw [mem_idxAdd]
      simp only [List.mem_cons, List.mem_append, List.mem_singleton]
      constructor
      · rintro ((hy | ⟨rfl, rfl⟩) | ⟨rfl, hr, hncg⟩)
        · exact Or.inl hy
        · exact Or.inr ⟨rfl, Or.inl rfl, ha⟩
        · refine Or.inr ⟨rfl, Or.inr hr, ?_⟩
          intro hcg
          exact hncg (Or.inl hcg)
      · rintro (hy | ⟨rfl, (rfl | hr), hncg⟩)
        · exact Or.inl (Or.inl hy)
        · exact Or.inl (Or.inr ⟨rfl, rfl⟩)
        · by_cases hga : g = a
          · subst hga
            exact Or.inl (Or.inr ⟨rfl, rfl⟩)
          · refine Or.inr ⟨rfl, hr, ?_⟩
            rintro (hcg | hga2)
            · exact hncg hcg
            · rcases hga2 with hga2 | hga2
              · exact hga hga2
              · exact List.not_mem_nil g hga2

theorem routeSub_cg_mem (gs : List String) (m : List (String × List String))
    (cid : String) (cg : List String) (x : String) :
    x ∈ (routeSubscribeIdx m cid cg gs).2 ↔ x ∈ cg ∨ x ∈ gs := by
  induction gs generalizing m cg with
  | nil => simp [routeSubscribeIdx]
  | cons a rest ih =>
    by_cases ha : a ∈ cg
    · simp only [routeSubscribeIdx, if_pos ha]
      rw [ih]
      simp only [List.mem_cons]
      constructor
      · rintro (hx | hr)
        · exact Or.inl hx
        · exact Or.inr (Or.inr hr)
      · rintro (hx | (rfl | hr))
        · exact Or.inl hx
        · exact Or.inl ha
        · exact Or.inr hr
    · simp only [routeSubscribeIdx, if_neg ha]
      rw [ih]
      simp only [List.mem_append, List.mem_singleton, List.mem_cons]
      tauto

theorem routeUnsub_idx_mem (gs : List String) (m : List (String × List String))
    (cid : String) (cg : List String) (g y : String) :
    y ∈ idxLookup (routeUnsubscribeIdx m cid cg gs).1 g ↔
      y ∈ idxLookup m g ∧ ¬(y = cid ∧ g ∈ gs ∧ g ∈ cg) := by
  induction gs generalizing m cg with
  | nil => simp [routeUnsubscribeIdx]
  | cons a rest ih =>
    by_cases ha : a ∈ cg
    · simp only [routeUnsubscribeIdx, if_pos ha]
      rw [ih]
      rw [mem_idxDiscardDel]
      simp only [List.mem_cons, List.mem_filter, Bool.not_eq_true', beq_eq_false_iff_ne, ne_eq]
      constructor
      · rintro ⟨⟨hy, hna⟩, hnr⟩
        refine ⟨hy, ?_⟩
        rintro ⟨rfl, (rfl | hr), hcg⟩
        · exact hna ⟨rfl, rfl⟩
        · exact hnr ⟨rfl, hr, hcg, fun hga => hna ⟨hga, rfl⟩⟩
      · rintro ⟨hy, hn⟩
        refine ⟨⟨hy, ?_⟩, ?_⟩
        · rintro ⟨rfl, rfl⟩
          exact hn ⟨rfl, Or.inl rfl, ha⟩
        · rintro ⟨rfl, hr, hcg, hga⟩
          exact hn ⟨rfl, Or.inr hr, hcg⟩
    · simp only [routeUnsubscribeIdx, if_neg ha]
      rw [ih]
      simp only [List.mem_cons]
      constructor
      · rintro ⟨hy, hn⟩
        refine ⟨hy, ?_⟩
        rintro ⟨rfl, (rfl | hr), hcg⟩
        · exact ha hcg
        · exact hn ⟨rfl, hr, hcg⟩
      · rintro ⟨hy, hn⟩
        refine ⟨hy, ?_⟩
        rintro ⟨rfl, hr, hcg⟩
        exact hn ⟨rfl, Or.inr hr, hcg⟩

theorem routeUnsub_cg_mem (gs : List String) (m : List (String × List String))
    (cid : String) (cg : List String) (x : String) :
    x ∈ (routeUnsubscribeIdx m cid cg gs).2 ↔ x ∈ cg ∧ x ∉ gs := by
  induction gs generalizing m cg with
  | nil => simp [routeUnsubscribeIdx]
  | cons a rest ih =>
    by_cases ha : a ∈ cg
    · simp only [routeUnsubscribeIdx, if_pos ha]
      rw [ih]
      simp only [List.mem_filter, Bool.not_eq_true', beq_eq_false_iff_ne, ne_eq, List.mem_cons]
      constructor
      · rintro ⟨⟨hx, hna⟩, hnr⟩
        refine ⟨hx, ?_⟩
        rintro (rfl | hr)
        · exact hna rfl
        · exact hnr hr
      · rintro ⟨hx, hn⟩
        exact ⟨⟨hx, fun hxa => hn (Or.inl hxa)⟩, fun hr => hn (Or.inr hr)⟩
    · simp only [routeUnsubscribeIdx, if_neg ha]
      rw [ih]
      simp only [List.mem_cons]
      constructor
      · rintro ⟨hx, hnr⟩
        refine ⟨hx, ?_⟩
        rintro (rfl | hr)
        · exact ha hx
        · exact hnr hr
      · rintro ⟨hx, hn⟩
        exact ⟨hx, fun hr => hn (Or.inr hr)⟩

theorem routeSub_noEmpty (gs : List String) (m : List (String × List String))
    (cid : String) (cg : List String) (h : ∀ p ∈ m, p.2 ≠ []) :
    ∀ p ∈ (routeSubscribeIdx m cid cg gs).1, p.2 ≠ [] := by
  induction gs generalizing m cg with
  | nil => exact h
  | cons a rest ih =>
    by_cases ha : a ∈ cg
    · simp only [routeSubscribeIdx, if_pos ha]
      exact ih m cg h
    · simp only [routeSubscribeIdx, if_neg ha]
      exact ih (idxAdd m a cid) (cg ++ [a]) (idxAdd_noEmpty m a cid h)

theorem routeUnsub_noEmpty (gs : List String) (m : List (String × List String))
    (cid : String) (cg : List String) (h : ∀ p ∈ m, p.2 ≠ []) :
    ∀ p ∈ (routeUnsubscribeIdx m cid cg gs).1, p.2 ≠ [] := by
  induction gs generalizing m cg with
  | nil => exact h
  | cons a rest ih =>
    by_cases ha : a ∈ cg
    · simp only [routeUnsubscribeIdx, if_pos ha]
      exact ih (idxDiscardDel m a cid) _ (idxDiscardDel_noEmpty m a cid h)
    · simp only [routeUnsubscribeIdx, if_neg ha]
      exact ih m cg h

theorem wsSend_ok (w : Ws) (m : Msg) : ((wsSend w m).2).ok = w.ok := by
  cases h : w.ok <;> simp [wsSend, h]

theorem wsOnly_refl (s : WebSocketManager) : wsOnly s s :=
  ⟨rfl, rfl, rfl, fun _ => rfl⟩

theorem wsOnly_trans {s t u : WebSocketManager} (h1 : wsOnly s t) (h2 : wsOnly t u) :
    wsOnly s u :=
  ⟨h2.1.trans h1.1, h2.2.1.trans h1.2.1, h2.2.2.1.trans h1.2.2.1,
    fun x => (h2.2.2.2 x).trans (h1.2.2.2 x)⟩

theorem send_to_client_wsOnly (s : WebSocketManager) (cid : String) (n : Msg) :
    wsOnly s (send_to_client s cid n).1 := by
  unfold send_to_client
  cases h : lookupA s.active_connections cid with
  | none => exact wsOnly_refl s
  | some c =>
    simp only [h]
    refine ⟨rfl, rfl, rfl, ?_⟩
    intro x
    rw [lookupA_insertA]
    by_cases hx : x = cid
    · subst hx
      rw [h]
      simp [coreOk, wsSend_ok]
    · rw [if_neg hx]

theorem bstep_wsOnly (n : Msg) (exC exU : List String) (acc : WebSocketManager × List (String × Bool))
    (cid : String) : wsOnly acc.1 (bstep n exC exU acc cid).1 := by
  unfold bstep
  cases h : lookupA acc.1.active_connections cid with
  | none => exact wsOnly_refl _
  | some c =>
    simp only [h]
    by_cases he : cid ∈ exC
    · simp only [if_pos he]
      exact wsOnly_refl _
    · simp only [if_neg he]
      by_cases hu : userExcluded c exU
      · simp only [if_pos hu]
        exact wsOnly_refl _
      · simp only [if_neg hu]
        refine ⟨rfl, rfl, rfl, ?_⟩
        intro x
        rw [lookupA_insertA]
        by_cases hx : x = cid
        · subst hx
          rw [h]
          simp [coreOk, wsSend_ok]
        · rw [if_neg hx]

theorem bfoldl_wsOnly (n : Msg) (exC exU : List String) (ks : List String) :
    ∀ acc : WebSocketManager × List (String × Bool),
      wsOnly acc.1 ((ks.foldl (bstep n exC exU) acc).1) := by
  induction ks with
  | nil => intro acc; exact wsOnly_refl _
  | cons a rest ih =>
    intro acc
    rw [List.foldl_cons]
    exact wsOnly_trans (bstep_wsOnly n exC exU acc a) (ih (bstep n exC exU acc a))

theorem broadcast_wsOnly (s : WebSocketManager) (n : Msg) (exC exU : List String) :
    wsOnly s (broadcast s n exC exU).1 :=
  bfoldl_wsOnly n exC exU (s.active_connections.map Prod.fst) (s, [])

theorem postConnectSends_wsOnly (s : WebSocketManager) (uid : Option String) (cid : String) :
    wsOnly s (postConnectSends s uid cid) := by
  unfold postConnectSends
  have h5 := send_to_client_wsOnly s cid (Msg.connected cid)
  cases uid with
  | none => exact h5
  | some u =>
    by_cases hu : u = ""
    · simp only [if_pos hu]
      exact h5
    · simp only [if_neg hu]
      exact wsOnly_trans h5 (broadcast_wsOnly _ _ _ _)

theorem postDisconnectSend_wsOnly (s : WebSocketManager) (uid : Option String) (cid : String) :
    wsOnly s (postDisconnectSend s uid cid) := by
  unfold postDisconnectSend
  cases uid with
  | none => exact wsOnly_refl s
  | some u =>
    by_cases hu : u = ""
    · simp only [if_pos hu]
      exact wsOnly_refl s
    · simp only [if_neg hu]
      exact broadcast_wsOnly _ _ _ _

theorem ex_of_coreOk_eq {s t : WebSocketManager} (hw : wsOnly s t) (x : String)
    (P : Option String → Option String → List String → Prop) :
    (∃ c, lookupA t.active_connections x = some c ∧ P c.user_id c.scan_id c.groups) ↔
    (∃ c, lookupA s.active_connections x = some c ∧ P c.user_id c.scan_id c.groups) := by
  have h := hw.2.2.2 x
  cases hs : lookupA s.active_connections x with
  | none =>
    rw [hs] at h
    cases ht : lookupA t.active_connections x with
    | none => simp [ht]
    | some d =>
      rw [ht] at h
      simp at h
  | some c =>
    rw [hs] at h
    cases ht : lookupA t.active_connections x with
    | none =>
      rw [ht] at h
      simp at h
    | some d =>
      rw [ht] at h
      simp only [Option.map_some'] at h
      have h2 : coreOk d = coreOk c := Option.some.inj h
      have hu : d.user_id = c.user_id := congrArg (fun q => q.2.1) h2
      have hsc : d.scan_id = c.scan_id := congrArg (fun q => q.2.2.2.1) h2
      have hg : d.groups = c.groups := congrArg (fun q => q.2.2.2.2.1) h2
      constructor
      · rintro ⟨e, he, hp⟩
        rcases Option.some.inj he with rfl
        exact ⟨c, rfl, by rw [← hu, ← hsc, ← hg]; exact hp⟩
      · rintro ⟨e, he, hp⟩
        rcases Option.some.inj he with rfl
        exact ⟨d, rfl, by rw [hu, hsc, hg]; exact hp⟩

theorem RegistryInvS_congr {s t : WebSocketManager} (hw : wsOnly s t)
    (hInv : RegistryInvS s) : RegistryInvS t := by
  obtain ⟨hg, hu, hsc⟩ := hInv
  refine ⟨?_, ?_, ?_⟩
  · intro g cid
    rw [hw.2.2.1]
    rw [ex_of_coreOk_eq hw cid (fun _ _ gr => g ∈ gr)]
    exact hg g cid
  · intro u cid
    rw [hw.1]
    rw [ex_of_coreOk_eq hw cid (fun uid _ _ => uid = some u)]
    exact hu u cid
  · intro t0 cid
    rw [hw.2.1]
    rw [ex_of_coreOk_eq hw cid (fun _ sid _ => sid = some t0)]
    exact hsc t0 cid

theorem NoEmptyInv_congr {s t : WebSocketManager} (hw : wsOnly s t)
    (hInv : NoEmptyInv s) : NoEmptyInv t := by
  rw [NoEmptyInv, hw.1, hw.2.1, hw.2.2.1]
  exact hInv

theorem connect_invS (s : WebSocketManager) (w : Ws) (cid : String) (uid ct sid : Option String)
    (gs : List String) (hFresh : lookupA s.active_connections cid = none)
    (hInv : RegistryInvS s) : RegistryInvS (connect s w cid uid ct sid gs) := by
  show RegistryInvS (postConnectSends
    { active_connections := insertA s.active_connections cid ⟨w, cid, uid, ct, sid, dedupS gs⟩
      user_connections := optIdxAdd s.user_connections uid cid
      scan_connections := optIdxAdd s.scan_connections sid cid
      group_connections := groupIdxAddAll s.group_connections (dedupS gs) cid } uid cid)
  apply RegistryInvS_congr (postConnectSends_wsOnly _ uid cid)
  refine ⟨?_, ?_, ?_⟩
  · intro g y
    show y ∈ idxLookup (groupIdxAddAll s.group_connections (dedupS gs) cid) g ↔
      ∃ c, lookupA (insertA s.active_connections cid ⟨w, cid, uid, ct, sid, dedupS gs⟩) y =
        some c ∧ g ∈ c.groups
    rw [mem_groupIdxAddAll]
    constructor
    · rintro (hy | ⟨rfl, hg⟩)
      · obtain ⟨c, hc, hgc⟩ := (hInv.1 g y).1 hy
        have hyne : ¬ y = cid := by
          intro hh
          rw [hh, hFresh] at hc
          exact Option.noConfusion hc
        exact ⟨c, by rw [lookupA_insertA, if_neg hyne]; exact hc, hgc⟩
      · exact ⟨⟨w, y, uid, ct, sid, dedupS gs⟩, by rw [lookupA_insertA, if_pos rfl], hg⟩
    · rintro ⟨c, hc, hgc⟩
      rw [lookupA_insertA] at hc
      by_cases hy : y = cid
      · rw [if_pos hy] at hc
        rcases Option.some.inj hc with rfl
        exact Or.inr ⟨hy, hgc⟩
      · rw [if_neg hy] at hc
        exact Or.inl ((hInv.1 g y).2 ⟨c, hc, hgc⟩)
  · intro u y hy
    replace hy : y ∈ idxLookup (optIdxAdd s.user_connections uid cid) u := hy
    rw [mem_optIdxAdd] at hy
    show u ≠ "" ∧ ∃ c, lookupA (insertA s.active_connections cid ⟨w, cid, uid, ct, sid, dedupS gs⟩) y =
      some c ∧ c.user_id = some u
    rcases hy with hy | ⟨huid, hne, rfl⟩
    · obtain ⟨hne, c, hc, hcu⟩ := hInv.2.1 u y hy
      have hyne : ¬ y = cid := by
        intro hh
        rw [hh, hFresh] at hc
        exact Option.noConfusion hc
      exact ⟨hne, c, by rw [lookupA_insertA, if_neg hyne]; exact hc, hcu⟩
    · exact ⟨hne, ⟨w, y, uid, ct, sid, dedupS gs⟩,
        by rw [lookupA_insertA, if_pos rfl], huid⟩
  · intro t0 y hy
    replace hy : y ∈ idxLookup (optIdxAdd s.scan_connections sid cid) t0 := hy
    rw [mem_optIdxAdd] at hy
    show t0 ≠ "" ∧ ∃ c, lookupA (insertA s.active_connections cid ⟨w, cid, uid, ct, sid, dedupS gs⟩) y =
      some c ∧ c.scan_id = some t0
    rcases hy with hy | ⟨hsid, hne, rfl⟩
    · obtain ⟨hne, c, hc, hct⟩ := hInv.2.2 t0 y hy
      have hyne : ¬ y = cid := by
        intro hh
        rw [hh, hFresh] at hc
        exact Option.noConfusion hc
      exact ⟨hne, c, by rw [lookupA_insertA, if_neg hyne]; exact hc, hct⟩
    · exact ⟨hne, ⟨w, y, uid, ct, sid, dedupS gs⟩,
        by rw [lookupA_insertA, if_pos rfl], hsid⟩

theorem disconnect_invS (s : WebSocketManager) (cid : String)
    (hInv : RegistryInvS s) : RegistryInvS (disconnect s cid) := by
  unfold disconnect
  cases h : lookupA s.active_connections cid with
  | none => exact hInv
  | some client =>
    simp only [h]
    apply RegistryInvS_congr (postDisconnectSend_wsOnly _ client.user_id cid)
    refine ⟨?_, ?_, ?_⟩
    · intro g y
      show y ∈ idxLookup (groupIdxDiscardAll s.group_connections client.groups cid) g ↔
        ∃ c, lookupA (eraseA (updateAt s.active_connections cid closeClient) cid) y =
          some c ∧ g ∈ c.groups
      rw [eraseA_updateAt, mem_groupIdxDiscardAll]
      constructor
      · rintro ⟨hy, hn⟩
        obtain ⟨c, hc, hgc⟩ := (hInv.1 g y).1 hy
        by_cases hyc : y = cid
        · subst hyc
          rw [h] at hc
          rcases Option.some.inj hc with rfl
          exact absurd ⟨rfl, hgc⟩ hn
        · exact ⟨c, by rw [lookupA_eraseA, if_neg hyc]; exact hc, hgc⟩
      · rintro ⟨c, hc, hgc⟩
        rw [lookupA_eraseA] at hc
        by_cases hyc : y = cid
        · rw [if_pos hyc] at hc
          exact Option.noConfusion hc
        · rw [if_neg hyc] at hc
          refine ⟨(hInv.1 g y).2 ⟨c, hc, hgc⟩, ?_⟩
          rintro ⟨rfl, hgcl⟩
          exact hyc rfl
    · intro u y hy
      replace hy : y ∈ idxLookup (optIdxDiscard s.user_connections client.user_id cid) u := hy
      rw [mem_optIdxDiscard] at hy
      obtain ⟨hy0, hn⟩ := hy
      obtain ⟨hne, c, hc, hcu⟩ := hInv.2.1 u y hy0
      show u ≠ "" ∧ ∃ c, lookupA (eraseA (updateAt s.active_connections cid closeClient) cid) y =
        some c ∧ c.user_id = some u
      rw [eraseA_updateAt]
      by_cases hyc : y = cid
      · subst hyc
        rw [h] at hc
        rcases Option.some.inj hc with rfl
        exact absurd ⟨hcu, hne, rfl⟩ hn
      · exact ⟨hne, c, by rw [lookupA_eraseA, if_neg hyc]; exact hc, hcu⟩
    · intro t0 y hy
      replace hy : y ∈ idxLookup (optIdxDiscard s.scan_connections client.scan_id cid) t0 := hy
      rw [mem_optIdxDiscard] at hy
      obtain ⟨hy0, hn⟩ := hy
      obtain ⟨hne, c, hc, hct⟩ := hInv.2.2 t0 y hy0
      show t0 ≠ "" ∧ ∃ c, lookupA (eraseA (updateAt s.active_connections cid closeClient) cid) y =
        some c ∧ c.scan_id = some t0
      rw [eraseA_updateAt]
      by_cases hyc : y = cid
      · subst hyc
        rw [h] at hc
        rcases Option.some.inj hc with rfl
        exact absurd ⟨hct, hne, rfl⟩ hn
      · exact ⟨hne, c, by rw [lookupA_eraseA, if_neg hyc]; exact hc, hct⟩

theorem updateGroups_user_part (s : WebSocketManager) (cid : String) (c : Client)
    (h : lookupA s.active_connections cid = some c) (ng : List String)
    (hInv : RegistryInvS s) :
    ∀ u y, y ∈ idxLookup s.user_connections u →
      u ≠ "" ∧ ∃ c0, lookupA (updateAt s.active_connections cid
        (fun c0 => { c0 with groups := ng })) y = some c0 ∧ c0.user_id = some u := by
  intro u y hy
  obtain ⟨hne, c2, hc2, hcu⟩ := hInv.2.1 u y hy
  by_cases hyc : y = cid
  · have hceq : c2 = c := by
      rw [hyc, h] at hc2
      exact (Option.some.inj hc2).symm
    refine ⟨hne, { c2 with groups := ng }, ?_, hcu⟩
    rw [lookupA_updateAt, if_pos hyc, h, hceq]
    rfl
  · refine ⟨hne, c2, ?_, hcu⟩
    rw [lookupA_updateAt, if_neg hyc]
    exact hc2

theorem updateGroups_scan_part (s : WebSocketManager) (cid : String) (c : Client)
    (h : lookupA s.active_connections cid = some c) (ng : List String)
    (hInv : RegistryInvS s) :
    ∀ t0 y, y ∈ idxLookup s.scan_connections t0 →
      t0 ≠ "" ∧ ∃ c0, lookupA (updateAt s.active_connections cid
        (fun c0 => { c0 with groups := ng })) y = some c0 ∧ c0.scan_id = some t0 := by
  intro t0 y hy
  obtain ⟨hne, c2, hc2, hct⟩ := hInv.2.2 t0 y hy
  by_cases hyc : y = cid
  · have hceq : c2 = c := by
      rw [hyc, h] at hc2
      exact (Option.some.inj hc2).symm
    refine ⟨hne, { c2 with groups := ng }, ?_, hct⟩
    rw [lookupA_updateAt, if_pos hyc, h, hceq]
    rfl
  · refine ⟨hne, c2, ?_, hct⟩
    rw [lookupA_updateAt, if_neg hyc]
    exact hc2

theorem subscribeStep_invS (s : WebSocketManager) (cid : String) (gs : List String)
    (hInv : RegistryInvS s) : RegistryInvS (subscribeStep s cid gs) := by
  unfold subscribeStep
  cases h : lookupA s.active_connections cid with
  | none => exact hInv
  | some c =>
    simp only [h]
    set r := routeSubscribeIdx s.group_connections cid c.groups gs with hrdef
    apply RegistryInvS_congr (send_to_client_wsOnly _ cid _)
    have hr1 : ∀ g0 y0, y0 ∈ idxLookup r.1 g0 ↔
        y0 ∈ idxLookup s.group_connections g0 ∨ (y0 = cid ∧ g0 ∈ gs ∧ g0 ∉ c.groups) := by
      intro g0 y0
      rw [hrdef]
      exact routeSub_idx_mem gs s.group_connections cid c.groups g0 y0
    have hr2 : ∀ x, x ∈ r.2 ↔ x ∈ c.groups ∨ x ∈ gs := by
      intro x
      rw [hrdef]
      exact routeSub_cg_mem gs s.group_connections cid c.groups x
    refine ⟨?_, ?_, ?_⟩
    · intro g y
      show y ∈ idxLookup r.1 g ↔
        ∃ c2, lookupA (updateAt s.active_connections cid
          (fun c0 => { c0 with groups := r.2 })) y = some c2 ∧ g ∈ c2.groups
      rw [hr1]
      constructor
      · rintro (hy | ⟨rfl, hgs, hng⟩)
        · obtain ⟨c2, hc2, hg2⟩ := (hInv.1 g y).1 hy
          by_cases hyc : y = cid
          · have hceq : c2 = c := by
              rw [hyc, h] at hc2
              exact (Option.some.inj hc2).symm
            refine ⟨{ c2 with groups := r.2 }, ?_, ?_⟩
            · rw [lookupA_updateAt, if_pos hyc, h, hceq]
              rfl
            · show g ∈ r.2
              rw [hr2]
              exact Or.inl (hceq ▸ hg2)
          · refine ⟨c2, ?_, hg2⟩
            rw [lookupA_updateAt, if_neg hyc]
            exact hc2
        · refine ⟨{ c with groups := r.2 }, ?_, ?_⟩
          · rw [lookupA_updateAt, if_pos rfl, h]
            rfl
          · show g ∈ r.2
            rw [hr2]
            exact Or.inr hgs
      · rintro ⟨c2, hc2, hg2⟩
        rw [lookupA_updateAt] at hc2
        by_cases hyc : y = cid
        · rw [if_pos hyc, h] at hc2
          simp only [Option.map_some'] at hc2
          rcases Option.some.inj hc2 with rfl
          replace hg2 : g ∈ r.2 := hg2
          rw [hr2] at hg2
          rcases hg2 with hgc | hgs2
          · exact Or.inl ((hInv.1 g y).2 ⟨c, by rw [hyc]; exact h, hgc⟩)
          · by_cases hgc : g ∈ c.groups
            · exact Or.inl ((hInv.1 g y).2 ⟨c, by rw [hyc]; exact h, hgc⟩)
            · exact Or.inr ⟨hyc, hgs2, hgc⟩
        · rw [if_neg hyc] at hc2
          exact Or.inl ((hInv.1 g y).2 ⟨c2, hc2, hg2⟩)
    · exact updateGroups_user_part s cid c h r.2 hInv
    · exact updateGroups_scan_part s cid c h r.2 hInv

theorem unsubscribeStep_invS (s : WebSocketManager) (cid : String) (gs : List String)
    (hInv : RegistryInvS s) : RegistryInvS (unsubscribeStep s cid gs) := by
  unfold unsubscribeStep
  cases h : lookupA s.active_connections cid with
  | none => exact hInv
  | some c =>
    simp only [h]
    set r := routeUnsubscribeIdx s.group_connections cid c.groups gs with hrdef
    apply RegistryInvS_congr (send_to_client_wsOnly _ cid _)
    have hr1 : ∀ g0 y0, y0 ∈ idxLookup r.1 g0 ↔
        y0 ∈ idxLookup s.group_connections g0 ∧ ¬(y0 = cid ∧ g0 ∈ gs ∧ g0 ∈ c.groups) := by
      intro g0 y0
      rw [hrdef]
      exact routeUnsub_idx_mem gs s.group_connections cid c.groups g0 y0
    have hr2 : ∀ x, x ∈ r.2 ↔ x ∈ c.groups ∧ x ∉ gs := by
      intro x
      rw [hrdef]
      exact routeUnsub_cg_mem gs s.group_connections cid c.groups x
    refine ⟨?_, ?_, ?_⟩
    · intro g y
      show y ∈ idxLookup r.1 g ↔
        ∃ c2, lookupA (updateAt s.active_connections cid
          (fun c0 => { c0 with groups := r.2 })) y = some c2 ∧ g ∈ c2.groups
      rw [hr1]
      constructor
      · rintro ⟨hy, hn⟩
        obtain ⟨c2, hc2, hg2⟩ := (hInv.1 g y).1 hy
        by_cases hyc : y = cid
        · have hceq : c2 = c := by
            rw [hyc, h] at hc2
            exact (Option.some.inj hc2).symm
          refine ⟨{ c2 with groups := r.2 }, ?_, ?_⟩
          · rw [lookupA_updateAt, if_pos hyc, h, hceq]
            rfl
          · show g ∈ r.2
            rw [hr2]
            refine ⟨hceq ▸ hg2, ?_⟩
            intro hgs
            exact hn ⟨hyc, hgs, hceq ▸ hg2⟩
        · refine ⟨c2, ?_, hg2⟩
          rw [lookupA_updateAt, if_neg hyc]
          exact hc2
      · rintro ⟨c2, hc2, hg2⟩
        rw [lookupA_updateAt] at hc2
        by_cases hyc : y = cid
        · rw [if_pos hyc, h] at hc2
          simp only [Option.map_some'] at hc2
          rcases Option.some.inj hc2 with rfl
          replace hg2 : g ∈ r.2 := hg2
          rw [hr2] at hg2
          refine ⟨(hInv.1 g y).2 ⟨c, by rw [hyc]; exact h, hg2.1⟩, ?_⟩
          rintro ⟨hyc2, hgs, hgc⟩
          exact hg2.2 hgs
        · rw [if_neg hyc] at hc2
          refine ⟨(hInv.1 g y).2 ⟨c2, hc2, hg2⟩, ?_⟩
          rintro ⟨rfl, hgs, hgc⟩
          exact hyc rfl
    · exact updateGroups_user_part s cid c h r.2 hInv
    · exact updateGroups_scan_part s cid c h r.2 hInv

theorem connect_noEmpty (s : WebSocketManager) (w : Ws) (cid : String)
    (uid ct sid : Option String) (gs : List String) (hInv : NoEmptyInv s) :
    NoEmptyInv (connect s w cid uid ct sid gs) := by
  show NoEmptyInv (postConnectSends
    { active_connections := insertA s.active_connections cid ⟨w, cid, uid, ct, sid, dedupS gs⟩
      user_connections := optIdxAdd s.user_connections uid cid
      scan_connections := optIdxAdd s.scan_connections sid cid
      group_connections := groupIdxAddAll s.group_connections (dedupS gs) cid } uid cid)
  apply NoEmptyInv_congr (postConnectSends_wsOnly _ uid cid)
  exact ⟨optIdxAdd_noEmpty _ uid cid hInv.1, optIdxAdd_noEmpty _ sid cid hInv.2.1,
    groupIdxAddAll_noEmpty (dedupS gs) _ cid hInv.2.2⟩

theorem disconnect_noEmpty (s : WebSocketManager) (cid : String) (hInv : NoEmptyInv s) :
    NoEmptyInv (disconnect s cid) := by
  unfold disconnect
  cases h : lookupA s.active_connections cid with
  | none => exact hInv
  | some client =>
    simp only [h]
    apply NoEmptyInv_congr (postDisconnectSend_wsOnly _ client.user_id cid)
    exact ⟨optIdxDiscard_noEmpty _ client.user_id cid hInv.1,
      optIdxDiscard_noEmpty _ client.scan_id cid hInv.2.1,
      groupIdxDiscardAll_noEmpty client.groups _ cid hInv.2.2⟩

theorem subscribeStep_noEmpty (s : WebSocketManager) (cid : String) (gs : List String)
    (hInv : NoEmptyInv s) : NoEmptyInv (subscribeStep s cid gs) := by
  unfold subscribeStep
  cases h : lookupA s.active_connections cid with
  | none => exact hInv
  | some c =>
    simp only [h]
    apply NoEmptyInv_congr (send_to_client_wsOnly _ cid _)
    exact ⟨hInv.1, hInv.2.1, routeSub_noEmpty gs _ cid c.groups hInv.2.2⟩

theorem unsubscribeStep_noEmpty (s : WebSocketManager) (cid : String) (gs : List String)
    (hInv : NoEmptyInv s) : NoEmptyInv (unsubscribeStep s cid gs) := by
  unfold unsubscribeStep
  cases h : lookupA s.active_connections cid with
  | none => exact hInv
  | some c =>
    simp only [h]
    apply NoEmptyInv_congr (send_to_client_wsOnly _ cid _)
    exact ⟨hInv.1, hInv.2.1, routeUnsub_noEmpty gs _ cid c.groups hInv.2.2⟩

theorem runOp_invS (s : WebSocketManager) (op : Op) (hwf : wfOp s op = true)
    (hInv : RegistryInvS s) : RegistryInvS (runOp s op) := by
  cases op with
  | connect w cid uid ct sid gs =>
    simp only [wfOp] at hwf
    exact connect_invS s w cid uid ct sid gs (Option.isNone_iff_eq_none.mp hwf) hInv
  | disconnect cid => exact disconnect_invS s cid hInv
  | subscribe cid gs => exact subscribeStep_invS s cid gs hInv
  | unsubscribe cid gs => exact unsubscribeStep_invS s cid gs hInv

theorem runOp_noEmpty (s : WebSocketManager) (op : Op) (hInv : NoEmptyInv s) :
    NoEmptyInv (runOp s op) := by
  cases op with
  | connect w cid uid ct sid gs => exact connect_noEmpty s w cid uid ct sid gs hInv
  | disconnect cid => exact disconnect_noEmpty s cid hInv
  | subscribe cid gs => exact subscribeStep_noEmpty s cid gs hInv
  | unsubscribe cid gs => exact unsubscribeStep_noEmpty s cid gs hInv

theorem runOps_invS (ops : List Op) :
    ∀ s, RegistryInvS s → wfOps s ops = true → RegistryInvS (runOps s ops) := by
  induction ops with
  | nil => intro s h _; exact h
  | cons op rest ih =>
    intro s h hwf
    simp only [wfOps, Bool.and_eq_true] at hwf
    simp only [runOps, List.foldl_cons]
    exact ih (runOp s op) (runOp_invS s op hwf.1 h) hwf.2

theorem runOps_noEmpty (ops : List Op) :
    ∀ s, NoEmptyInv s → NoEmptyInv (runOps s ops) := by
  induction ops with
  | nil => intro s h; exact h
  | cons op rest ih =>
    intro s h
    simp only [runOps, List.foldl_cons]
    exact ih (runOp s op) (runOp_noEmpty s op h)

theorem initManager_invS : RegistryInvS initManager := by
  refine ⟨?_, ?_, ?_⟩ <;> intro a b <;> simp [initManager, idxLookup, lookupA]

theorem initManager_noEmpty : NoEmptyInv initManager := by
  refine ⟨?_, ?_, ?_⟩ <;> intro p hp <;> simp [initManager] at hp

/-- Operation sequence exhibiting a duplicate `connect` on the same
`client_id`: the first registers with group `"g"`, the second silently
overwrites the primary-map entry with a client holding no groups, leaving
`"c1"` stranded in `group_connections["g"]`. -/
def dupOps : List Op :=
  [Op.connect ⟨true, []⟩ "c1" none none none ["g"],
   Op.connect ⟨true, []⟩ "c1" none none none []]

/-- C1 counterexample: the claimed group-membership invariant fails on the
code after a duplicate `connect`. `WebSocketManager.connect` overwrites
`active_connections[client_id]` without scrubbing the old entry's index
registrations, so after `dupOps` the id `"c1"` sits in
`group_connections["g"]` while the active connection `"c1"` holds no groups —
refuting the claimed iff. -/
theorem registry_invariant_counterexample : ¬ RegistryInv (runOps initManager dupOps) := by
  intro hcl
  have h1 : "c1" ∈ idxLookup (runOps initManager dupOps).group_connections "g" := by decide
  obtain ⟨c, hc, hg⟩ := (hcl.1 "g" "c1").1 h1
  have h2 : (lookupA (runOps initManager dupOps).active_connections "c1").map Client.groups =
      some [] := by decide
  rw [hc] at h2
  simp only [Option.map_some'] at h2
  rcases Option.some.inj h2 with hgr
  rw [hgr] at hg
  exact List.not_mem_nil _ hg

/-- C1 (amended): starting from a fresh `WebSocketManager`, after every finite
sequence of connect, disconnect, and subscribe/unsubscribe group-update
operations in which every `connect` carries a client id that is not currently
registered (`wfOps`), the registry invariant holds: a client id is in
`group_connections[g]` iff it names an active connection holding `g`, and
every id indexed under `user_connections[u]` / `scan_connections[t]` names an
active connection with that `user_id` / `scan_id`. The freshness condition is
forced by `registry_invariant_counterexample`: a duplicate `connect`
overwrites the primary entry and breaks the invariant. -/
theorem registry_invariant_of_fresh_ops (ops : List Op)
    (hwf : wfOps initManager ops = true) : RegistryInv (runOps initManager ops) := by
  have hS := runOps_invS ops initManager initManager_invS hwf
  exact ⟨hS.1, fun u cid h => (hS.2.1 u cid h).2, fun t cid h => (hS.2.2 t cid h).2⟩

/-- Witness for `registry_invariant_of_fresh_ops` at a concrete well-formed
operation sequence. -/
theorem registry_invariant_of_fresh_ops_witness :
    wfOps initManager
        [Op.connect ⟨true, []⟩ "c1" (some "u1") none none ["g"],
         Op.subscribe "c1" ["h"], Op.disconnect "c1"] = true ∧
      RegistryInv (runOps initManager
        [Op.connect ⟨true, []⟩ "c1" (some "u1") none none ["g"],
         Op.subscribe "c1" ["h"], Op.disconnect "c1"]) :=
  ⟨by decide, registry_invariant_of_fresh_ops _ (by decide)⟩

/-- C10: after every finite sequence of manager operations (connect,
disconnect, subscribe, unsubscribe) on a fresh manager — with no freshness
restriction whatsoever — no key of `user_connections`, `scan_connections`, or
`group_connections` maps to an empty set: every operation that removes the
last client id from an index entry also deletes the key. -/
theorem no_empty_index_entries (ops : List Op) : NoEmptyInv (runOps initManager ops) :=
  runOps_noEmpty ops initManager initManager_noEmpty

theorem wsOnly_lookup_none {s t : WebSocketManager} (hw : wsOnly s t) (x : String)
    (h : lookupA s.active_connections x = none) :
    lookupA t.active_connections x = none := by
  have h2 := hw.2.2.2 x
  rw [h] at h2
  simp only [Option.map_none'] at h2
  exact Option.map_eq_none'.mp h2

theorem disconnect_lookup_none (s : WebSocketManager) (cid : String) :
    lookupA (disconnect s cid).active_connections cid = none := by
  unfold disconnect
  cases h : lookupA s.active_connections cid with
  | none => simpa using h
  | some client =>
    simp only [h]
    apply wsOnly_lookup_none (postDisconnectSend_wsOnly _ client.user_id cid)
    show lookupA (eraseA (updateAt s.active_connections cid closeClient) cid) cid = none
    rw [eraseA_updateAt, lookupA_eraseA, if_pos rfl]

theorem disconnect_of_absent (s : WebSocketManager) (cid : String)
    (h : lookupA s.active_connections cid = none) : disconnect s cid = s := by
  unfold disconnect
  rw [h]

/-- C5: `WebSocketManager.disconnect` is idempotent — running it twice on the
same id leaves the whole manager state (primary map, every secondary index,
and even the delivered-frame logs) exactly as running it once, and running it
on an id absent from the primary map is a no-op that raises no error (the
operation is a total function that returns the state unchanged). -/
theorem disconnect_idempotent (s : WebSocketManager) (cid : String) :
    disconnect (disconnect s cid) cid = disconnect s cid ∧
    (lookupA s.active_connections cid = none → disconnect s cid = s) :=
  ⟨disconnect_of_absent _ cid (disconnect_lookup_none s cid),
   fun h => disconnect_of_absent s cid h⟩

/-- Witness for `disconnect_idempotent`: on the fresh manager and a concrete
id, the absent-id hypothesis holds definitionally. -/
theorem disconnect_idempotent_witness :
    disconnect (disconnect initManager "x") "x" = disconnect initManager "x" ∧
      disconnect initManager "x" = initManager :=
  ⟨(disconnect_idempotent initManager "x").1,
   (disconnect_idempotent initManager "x").2 rfl⟩

theorem wsSend_fst (w : Ws) (m : Msg) : (wsSend w m).1 = w.ok := by
  cases h : w.ok <;> simp [wsSend, h]

theorem wsOnly_outcomeOf {s t : WebSocketManager} (hw : wsOnly s t) (x : String) :
    outcomeOf t x = outcomeOf s x := by
  have h := hw.2.2.2 x
  unfold outcomeOf
  cases hs : lookupA s.active_connections x with
  | none =>
    rw [hs] at h
    simp only [Option.map_none'] at h
    rw [Option.map_eq_none'.mp h]
  | some c =>
    rw [hs] at h
    cases ht : lookupA t.active_connections x with
    | none =>
      rw [ht] at h
      simp at h
    | some d =>
      rw [ht] at h
      simp only [Option.map_some'] at h
      have h2 := Option.some.inj h
      exact congrArg (fun q => q.2.2.2.2.2) h2

theorem userExcluded_eq_of_user_id {c d : Client} (h : d.user_id = c.user_id)
    (exU : List String) : userExcluded d exU = userExcluded c exU := by
  unfold userExcluded
  rw [h]

theorem wsOnly_keepB {s t : WebSocketManager} (hw : wsOnly s t) (exC exU : List String)
    (x : String) : keepB exC exU t x = keepB exC exU s x := by
  have h := hw.2.2.2 x
  unfold keepB
  cases hs : lookupA s.active_connections x with
  | none =>
    rw [hs] at h
    simp only [Option.map_none'] at h
    rw [Option.map_eq_none'.mp h]
  | some c =>
    rw [hs] at h
    cases ht : lookupA t.active_connections x with
    | none =>
      rw [ht] at h
      simp at h
    | some d =>
      rw [ht] at h
      simp only [Option.map_some'] at h
      have h2 := Option.some.inj h
      have hu : d.user_id = c.user_id := congrArg (fun q => q.2.1) h2
      show (!(decide (x ∈ exC)) && !userExcluded d exU) = (!(decide (x ∈ exC)) && !userExcluded c exU)
      rw [userExcluded_eq_of_user_id hu]

theorem bfold_results (n : Msg) (exC exU : List String) (ks : List String) :
    ∀ acc : WebSocketManager × List (String × Bool),
      (ks.foldl (bstep n exC exU) acc).2 =
        acc.2 ++ ks.filterMap (fun cid =>
          if keepB exC exU acc.1 cid = true then some (cid, outcomeOf acc.1 cid) else none) := by
  induction ks with
  | nil => intro acc; simp
  | cons a rest ih =>
    intro acc
    rw [List.foldl_cons, ih (bstep n exC exU acc a)]
    have hws : wsOnly acc.1 (bstep n exC exU acc a).1 := bstep_wsOnly n exC exU acc a
    have hfun : (fun cid => if keepB exC exU (bstep n exC exU acc a).1 cid = true then
        some (cid, outcomeOf (bstep n exC exU acc a).1 cid) else none) =
        (fun cid => if keepB exC exU acc.1 cid = true then
          some (cid, outcomeOf acc.1 cid) else none) := by
      funext cid
      rw [wsOnly_keepB hws, wsOnly_outcomeOf hws]
    rw [hfun]
    cases h : lookupA acc.1.active_connections a with
    | none =>
      have hk : keepB exC exU acc.1 a = false := by
        unfold keepB
        rw [h]
      simp only [bstep, h]
      simp [List.filterMap_cons, hk]
    | some c =>
      by_cases he : a ∈ exC
      · have hk : keepB exC exU acc.1 a = false := by
          unfold keepB
          rw [h]
          show (!(decide (a ∈ exC)) && !userExcluded c exU) = false
          simp [he]
        simp only [bstep, h, if_pos he]
        simp [List.filterMap_cons, hk]
      · by_cases hu : userExcluded c exU
        · have hk : keepB exC exU acc.1 a = false := by
            unfold keepB
            rw [h]
            show (!(decide (a ∈ exC)) && !userExcluded c exU) = false
            simp [he, hu]
          simp only [bstep, h, if_neg he, if_pos hu]
          simp [List.filterMap_cons, hk]
        · have hk : keepB exC exU acc.1 a = true := by
            unfold keepB
            rw [h]
            show (!(decide (a ∈ exC)) && !userExcluded c exU) = true
            simp [he, hu]
          have ho : outcomeOf acc.1 a = c.ws.ok := by
            unfold outcomeOf
            rw [h]
          simp only [bstep, h, if_neg he, if_neg hu]
          rw [List.filterMap_cons]
          simp [hk, ho, wsSend_fst]

theorem bstep_lookup_other (n : Msg) (exC exU : List String)
    (acc : WebSocketManager × List (String × Bool)) (a x : String) (hx : ¬ x = a) :
    lookupA ((bstep n exC exU acc a).1).active_connections x =
      lookupA acc.1.active_connections x := by
  unfold bstep
  cases h : lookupA acc.1.active_connections a with
  | none => rfl
  | some c =>
    by_cases he : a ∈ exC
    · simp [if_pos he]
    · by_cases hu : userExcluded c exU
      · simp [if_neg he, if_pos hu]
      · simp only [if_neg he, if_neg hu]
        rw [lookupA_insertA, if_neg hx]

theorem bfold_state_other (n : Msg) (exC exU : List String) (ks : List String) :
    ∀ acc x, x ∉ ks →
      lookupA ((ks.foldl (bstep n exC exU) acc).1).active_connections x =
        lookupA acc.1.active_connections x := by
  induction ks with
  | nil => intro acc x _; rfl
  | cons a rest ih =>
    intro acc x hx
    rw [List.foldl_cons]
    have hxa : ¬ x = a := fun hh => hx (hh ▸ List.mem_cons_self a rest)
    have hxr : x ∉ rest := fun hh => hx (List.mem_cons_of_mem a hh)
    rw [ih (bstep n exC exU acc a) x hxr, bstep_lookup_other n exC exU acc a x hxa]

theorem bfold_state_mem (n : Msg) (exC exU : List String) (ks : List String) :
    ∀ acc x c, ks.Nodup → x ∈ ks →
      lookupA acc.1.active_connections x = some c → keepB exC exU acc.1 x = true →
      lookupA ((ks.foldl (bstep n exC exU) acc).1).active_connections x =
        some { c with ws := (wsSend c.ws n).2 } := by
  induction ks with
  | nil => intro acc x c _ hx; cases hx
  | cons a rest ih =>
    intro acc x c hnd hx hc hk
    rw [List.foldl_cons]
    rcases List.mem_cons.1 hx with rfl | hxr
    · have hna : x ∉ rest := (List.nodup_cons.1 hnd).1
      rw [bfold_state_other n exC exU rest (bstep n exC exU acc x) x hna]
      unfold keepB at hk
      rw [hc] at hk
      simp only [Bool.and_eq_true, Bool.not_eq_true'] at hk
      have hne1 : x ∉ exC := of_decide_eq_false hk.1
      have hne2 : ¬ userExcluded c exU = true := by
        rw [hk.2]
        exact Bool.false_ne_true
      unfold bstep
      rw [hc]
      simp only [if_neg hne1, if_neg hne2]
      rw [lookupA_insertA, if_pos rfl]
    · have hxa : ¬ x = a := by
        intro hh
        exact (List.nodup_cons.1 hnd).1 (hh ▸ hxr)
      have hws : wsOnly acc.1 (bstep n exC exU acc a).1 := bstep_wsOnly n exC exU acc a
      refine ih (bstep n exC exU acc a) x c (List.nodup_cons.1 hnd).2 hxr ?_ ?_
      · rw [bstep_lookup_other n exC exU acc a x hxa]
        exact hc
      · rw [wsOnly_keepB hws]
        exact hk

theorem lookupA_of_mem_nodup {α : Type} (m : List (String × α))
    (hnd : (m.map Prod.fst).Nodup) (p : String × α) (hp : p ∈ m) :
    lookupA m p.1 = some p.2 := by
  induction m with
  | nil => cases hp
  | cons q t ih =>
    simp only [List.map_cons, List.nodup_cons] at hnd
    rcases List.mem_cons.1 hp with rfl | hp2
    · simp [lookupA]
    · have hq : ¬ q.1 = p.1 := by
        intro hh
        exact hnd.1 (hh ▸ List.mem_map_of_mem Prod.fst hp2)
      simp only [lookupA, if_neg hq]
      exact ih hnd.2 hp2

theorem userExcluded_nil (c : Client) : userExcluded c [] = false := by
  unfold userExcluded
  cases c.user_id with
  | none => rfl
  | some u => simp

theorem filterMap_of_map {α β γ : Type} (g : α → β) (f : β → Option γ) (l : List α) :
    (l.map g).filterMap f = l.filterMap (fun x => f (g x)) := by
  induction l with
  | nil => rfl
  | cons a t ih => simp [List.filterMap_cons, ih]

theorem filterMap_if_eq_map_filter {α β : Type} (p : α → Bool) (f : α → β) (l : List α) :
    (l.filterMap fun x => if p x = true then some (f x) else none) = (l.filter p).map f := by
  induction l with
  | nil => rfl
  | cons a t ih =>
    by_cases h : p a <;> simp [List.filterMap_cons, List.filter_cons, h, ih]

/-- C6: for every registry state (with the dict-key uniqueness every Python
dict has) and every id `a`, `broadcast` with exclusion set `{a}` attempts
delivery to exactly the currently-registered connections other than `a`: the
result pairs each such connection id with its transport outcome, in registry
order, and an id receives an entry iff it is registered and differs from `a`
— regardless of the order in which connections were registered. -/
theorem broadcast_exclusion_complete (s : WebSocketManager) (n : Msg) (a : String)
    (hnd : (s.active_connections.map Prod.fst).Nodup) :
    (broadcast s n [a] []).2 =
      (s.active_connections.filter (fun p => !(p.1 == a))).map (fun p => (p.1, p.2.ws.ok)) ∧
    ∀ cid, (∃ b, (cid, b) ∈ (broadcast s n [a] []).2) ↔
      (cid ∈ s.active_connections.map Prod.fst ∧ cid ≠ a) := by
  have hmain : (broadcast s n [a] []).2 =
      (s.active_connections.filter (fun p => !(p.1 == a))).map (fun p => (p.1, p.2.ws.ok)) := by
    unfold broadcast
    rw [bfold_results]
    simp only [List.nil_append]
    rw [filterMap_of_map]
    rw [List.filterMap_congr (g := fun p : String × Client =>
      if (!(p.1 == a)) = true then some (p.1, p.2.ws.ok) else none) ?_]
    · exact filterMap_if_eq_map_filter _ _ _
    · intro p hp
      have hlp : lookupA s.active_connections p.1 = some p.2 := lookupA_of_mem_nodup _ hnd p hp
      have hkeep : keepB [a] [] s p.1 = !(p.1 == a) := by
        unfold keepB
        rw [hlp]
        show (!(decide (p.1 ∈ [a])) && !userExcluded p.2 []) = !(p.1 == a)
        rw [userExcluded_nil]
        by_cases hpa : p.1 = a <;> simp [hpa]
      have ho : outcomeOf s p.1 = p.2.ws.ok := by
        unfold outcomeOf
        rw [hlp]
      rw [hkeep, ho]
  refine ⟨hmain, ?_⟩
  intro cid
  rw [hmain]
  constructor
  · rintro ⟨b, hb⟩
    rcases List.mem_map.1 hb with ⟨p, hpf, hpe⟩
    rcases List.mem_filter.1 hpf with ⟨hpm, hpa⟩
    have h1 : p.1 = cid := congrArg Prod.fst hpe
    simp only [Bool.not_eq_true', beq_eq_false_iff_ne, ne_eq] at hpa
    refine ⟨h1 ▸ List.mem_map_of_mem Prod.fst hpm, h1 ▸ hpa⟩
  · rintro ⟨hcid, hca⟩
    rcases List.mem_map.1 hcid with ⟨p, hpm, rfl⟩
    refine ⟨p.2.ws.ok, List.mem_map_of_mem _ (List.mem_filter.2 ⟨hpm, ?_⟩)⟩
    simp only [Bool.not_eq_true', beq_eq_false_iff_ne, ne_eq]
    exact hca

/-- Witness for `broadcast_exclusion_complete` on a concrete two-connection
registry: excluding `"a"` from the broadcast targets exactly `"b"`. -/
theorem broadcast_exclusion_complete_witness :
    ((⟨[("a", ⟨⟨true, []⟩, "a", none, none, none, []⟩),
        ("b", ⟨⟨true, []⟩, "b", none, none, none, []⟩)],
      [], [], []⟩ : WebSocketManager).active_connections.map Prod.fst).Nodup ∧
    (broadcast ⟨[("a", ⟨⟨true, []⟩, "a", none, none, none, []⟩),
        ("b", ⟨⟨true, []⟩, "b", none, none, none, []⟩)], [], [], []⟩
      (Msg.note "m") ["a"] []).2 = [("b", true)] :=
  ⟨by decide, by
    rw [(broadcast_exclusion_complete _ (Msg.note "m") "a" (by decide)).1]
    decide⟩

/-- C2: isolation under send failure. For any registry whose primary map
holds exactly connections `a ↦ A`, `b ↦ B`, `c ↦ C` (any secondary indexes),
where B's transport is broken and A's and C's are live, a `broadcast` returns
the per-connection result map `{a: true, b: false, c: true}`, delivers the
serialized notification to A and C (their transport logs grow by exactly the
frame), and leaves B exactly as it was — the failure on B neither raises (the
operation is a total function) nor aborts the loop over the remaining
targets. -/
theorem broadcast_failure_isolation (s : WebSocketManager) (a b c : String)
    (A B C : Client) (n : Msg)
    (hs : s.active_connections = [(a, A), (b, B), (c, C)])
    (hab : a ≠ b) (hac : a ≠ c) (hbc : b ≠ c)
    (hA : A.ws.ok = true) (hB : B.ws.ok = false) (hC : C.ws.ok = true) :
    (broadcast s n [] []).2 = [(a, true), (b, false), (c, true)] ∧
    lookupA (broadcast s n [] []).1.active_connections a =
      some { A with ws := { A.ws with sent := A.ws.sent ++ [n] } } ∧
    lookupA (broadcast s n [] []).1.active_connections c =
      some { C with ws := { C.ws with sent := C.ws.sent ++ [n] } } ∧
    lookupA (broadcast s n [] []).1.active_connections b = some B := by
  have hnd : (s.active_connections.map Prod.fst).Nodup := by
    rw [hs]
    simp [List.nodup_cons, hab, hac, hbc]
  have hla : lookupA s.active_connections a = some A := by
    rw [hs]
    simp [lookupA]
  have hlb : lookupA s.active_connections b = some B := by
    rw [hs]
    simp [lookupA, hab]
  have hlc : lookupA s.active_connections c = some C := by
    rw [hs]
    simp [lookupA, hac, hbc]
  have hka : keepB [] [] s a = true := by
    unfold keepB
    rw [hla]
    show (!(decide (a ∈ ([] : List String))) && !userExcluded A []) = true
    simp [userExcluded_nil]
  have hkb : keepB [] [] s b = true := by
    unfold keepB
    rw [hlb]
    show (!(decide (b ∈ ([] : List String))) && !userExcluded B []) = true
    simp [userExcluded_nil]
  have hkc : keepB [] [] s c = true := by
    unfold keepB
    rw [hlc]
    show (!(decide (c ∈ ([] : List String))) && !userExcluded C []) = true
    simp [userExcluded_nil]
  have hoa : outcomeOf s a = true := by
    unfold outcomeOf
    rw [hla]
    exact hA
  have hob : outcomeOf s b = false := by
    unfold outcomeOf
    rw [hlb]
    exact hB
  have hoc : outcomeOf s c = true := by
    unfold outcomeOf
    rw [hlc]
    exact hC
  have hma : a ∈ s.active_connections.map Prod.fst := by
    rw [hs]
    simp
  have hmb : b ∈ s.active_connections.map Prod.fst := by
    rw [hs]
    simp
  have hmc : c ∈ s.active_connections.map Prod.fst := by
    rw [hs]
    simp
  unfold broadcast
  refine ⟨?_, ?_, ?_, ?_⟩
  · show ((s.active_connections.map Prod.fst).foldl (bstep n [] []) (s, [])).2 =
      [(a, true), (b, false), (c, true)]
    rw [bfold_results]
    have hks : s.active_connections.map Prod.fst = [a, b, c] := by
      rw [hs]
      rfl
    rw [hks]
    simp [List.filterMap_cons, hka, hkb, hkc, hoa, hob, hoc]
  · have h1 := bfold_state_mem n [] [] (s.active_connections.map Prod.fst) (s, []) a A hnd hma hla hka
    rw [h1]
    have : (wsSend A.ws n).2 = { A.ws with sent := A.ws.sent ++ [n] } := by
      simp [wsSend, hA]
    rw [this]
  · have h1 := bfold_state_mem n [] [] (s.active_connections.map Prod.fst) (s, []) c C hnd hmc hlc hkc
    rw [h1]
    have : (wsSend C.ws n).2 = { C.ws with sent := C.ws.sent ++ [n] } := by
      simp [wsSend, hC]
    rw [this]
  · have h1 := bfold_state_mem n [] [] (s.active_connections.map Prod.fst) (s, []) b B hnd hmb hlb hkb
    rw [h1]
    have : (wsSend B.ws n).2 = B.ws := by
      simp [wsSend, hB]
    rw [this]

/-- Witness for `broadcast_failure_isolation` at a concrete three-connection
registry with a broken middle transport. -/
theorem broadcast_failure_isolation_witness :
    (broadcast ⟨[("A", ⟨⟨true, []⟩, "A", none, none, none, []⟩),
        ("B", ⟨⟨false, []⟩, "B", none, none, none, []⟩),
        ("C", ⟨⟨true, []⟩, "C", none, none, none, []⟩)], [], [], []⟩
      (Msg.note "alert") [] []).2 = [("A", true), ("B", false), ("C", true)] :=
  (broadcast_failure_isolation _ "A" "B" "C"
    ⟨⟨true, []⟩, "A", none, none, none, []⟩
    ⟨⟨false, []⟩, "B", none, none, none, []⟩
    ⟨⟨true, []⟩, "C", none, none, none, []⟩
    (Msg.note "alert") rfl (by decide) (by decide) (by decide) rfl rfl rfl).1

theorem send_to_client_snd (s : WebSocketManager) (cid : String) (n : Msg) :
    (send_to_client s cid n).2 = outcomeOf s cid := by
  unfold send_to_client outcomeOf
  cases h : lookupA s.active_connections cid with
  | none => rfl
  | some c =>
    simp only [h]
    exact wsSend_fst c.ws n

theorem sendAccum_foldl_results (n : Msg) (cids : List String) :
    ∀ acc : WebSocketManager × List Bool,
      (cids.foldl (sendAccum n) acc).2 = acc.2 ++ cids.map (outcomeOf acc.1) := by
  induction cids with
  | nil => intro acc; simp
  | cons a rest ih =>
    intro acc
    rw [List.foldl_cons, ih (sendAccum n acc a)]
    have hw := send_to_client_wsOnly acc.1 a n
    have hfun : outcomeOf (sendAccum n acc a).1 = outcomeOf acc.1 :=
      funext (wsOnly_outcomeOf hw)
    rw [hfun]
    show acc.2 ++ [(send_to_client acc.1 a n).2] ++ rest.map (outcomeOf acc.1) =
      acc.2 ++ (outcomeOf acc.1 a :: rest.map (outcomeOf acc.1))
    rw [send_to_client_snd]
    simp

/-- C4 (amended): `send_to_user`, `send_to_scan`, and `send_to_group` return
a bare list of booleans — one per resolved target id in index order, each
entry being that target's delivery outcome — with no connection ids attached.
(Only `broadcast` returns a per-connection map keyed by id, and the
`/ws/notify` route wraps the single-client mode into a one-entry map.) -/
theorem send_results_shape (s : WebSocketManager) (n : Msg) (u t g : String) :
    (send_to_user s u n).2 = (idxLookup s.user_connections u).map (outcomeOf s) ∧
    (send_to_scan s t n).2 = (idxLookup s.scan_connections t).map (outcomeOf s) ∧
    (send_to_group s g n).2 = (idxLookup s.group_connections g).map (outcomeOf s) := by
  refine ⟨?_, ?_, ?_⟩
  · unfold send_to_user
    rw [sendAccum_foldl_results]
    simp
  · unfold send_to_scan
    rw [sendAccum_foldl_results]
    simp
  · unfold send_to_group
    rw [sendAccum_foldl_results]
    simp

/-- Registry resolving user `"u"` to the single live connection `"c1"`. -/
def oneConnState1 : WebSocketManager :=
  ⟨[("c1", ⟨⟨true, []⟩, "c1", some "u", none, none, []⟩)], [("u", ["c1"])], [], []⟩

/-- Registry resolving user `"u"` to the single live connection `"c2"`. -/
def oneConnState2 : WebSocketManager :=
  ⟨[("c2", ⟨⟨true, []⟩, "c2", some "u", none, none, []⟩)], [("u", ["c2"])], [], []⟩

/-- C4 counterexample: the per-user dispatch result is not a map from
connection ids to success. Two registries whose resolved target sets differ
(`{"c1"}` versus `{"c2"}`) yield the very same `send_to_user` result `[true]`
— a bare list of booleans that cannot attribute any outcome to a specific
connection, refuting the claimed `{connection_id: bool}` shape for the
user/scan/group addressing modes. -/
theorem dispatch_shape_counterexample :
    (send_to_user oneConnState1 "u" (Msg.note "m")).2 =
      (send_to_user oneConnState2 "u" (Msg.note "m")).2 ∧
    idxLookup oneConnState1.user_connections "u" ≠
      idxLookup oneConnState2.user_connections "u" := by
  decide

/-- A registry holding one connection `"b"` whose transport is broken. -/
def brokenState : WebSocketManager :=
  ⟨[("b", ⟨⟨false, []⟩, "b", none, none, none, []⟩)], [], [], []⟩

/-- C8 counterexample: a failed transport write records `false` but performs
no cleanup whatsoever — the whole manager state is unchanged, so the failed
connection is not unregistered and no `Closing` transition happens, refuting
the claim that a send failure triggers single-connection cleanup. -/
theorem send_failure_counterexample :
    (send_to_client brokenState "b" (Msg.note "x")).2 = false ∧
    (send_to_client brokenState "b" (Msg.note "x")).1 = brokenState := by
  decide

/-- C8 (amended): when the transport write for `cid` fails, `send_to_client`
records `false` for that connection, no exception propagates (the operation
is a total function), and the registry is left untouched: the failed
connection stays registered under the same client record and every secondary
index is unchanged. Cleanup is left to the route's `finally` disconnect; only
the legacy manager in `services/notifications/websocket.py` disconnects on a
failed send, and it records no result at all. -/
theorem send_failure_recorded_no_cleanup (s : WebSocketManager) (cid : String) (c : Client)
    (n : Msg) (hc : lookupA s.active_connections cid = some c) (hok : c.ws.ok = false) :
    (send_to_client s cid n).2 = false ∧
    lookupA (send_to_client s cid n).1.active_connections cid = some c ∧
    (send_to_client s cid n).1.user_connections = s.user_connections ∧
    (send_to_client s cid n).1.scan_connections = s.scan_connections ∧
    (send_to_client s cid n).1.group_connections = s.group_connections := by
  have hws : (wsSend c.ws n).2 = c.ws := by
    simp [wsSend, hok]
  refine ⟨?_, ?_, ?_, ?_, ?_⟩
  · rw [send_to_client_snd]
    unfold outcomeOf
    rw [hc]
    exact hok
  · unfold send_to_client
    simp only [hc]
    rw [lookupA_insertA, if_pos rfl, hws]
  · unfold send_to_client
    simp only [hc]
  · unfold send_to_client
    simp only [hc]
  · unfold send_to_client
    simp only [hc]

/-- Witness for `send_failure_recorded_no_cleanup` on the concrete
single-connection registry with a broken transport. -/
theorem send_failure_recorded_no_cleanup_witness :
    (send_to_client brokenState "b" (Msg.note "x")).2 = false ∧
    lookupA (send_to_client brokenState "b" (Msg.note "x")).1.active_connections "b" =
      some ⟨⟨false, []⟩, "b", none, none, none, []⟩ ∧
    (send_to_client brokenState "b" (Msg.note "x")).1.user_connections =
      brokenState.user_connections ∧
    (send_to_client brokenState "b" (Msg.note "x")).1.scan_connections =
      brokenState.scan_connections ∧
    (send_to_client brokenState "b" (Msg.note "x")).1.group_connections =
      brokenState.group_connections :=
  send_failure_recorded_no_cleanup brokenState "b" ⟨⟨false, []⟩, "b", none, none, none, []⟩
    (Msg.note "x") (by decide) rfl

/-- State after connecting `"c1"` as user `"u1"` on the fresh manager. -/
def c3Before : WebSocketManager :=
  connect initManager ⟨true, []⟩ "c1" (some "u1") none none []

/-- State after connecting the same id `"c1"` again, now as user `"u2"`. -/
def c3After : WebSocketManager :=
  connect c3Before ⟨true, []⟩ "c1" (some "u2") none none []

/-- C3 counterexample: `connect` does not reject a duplicate `client_id`.
Re-connecting `"c1"` is neither a no-op nor an error: the primary-map entry
is silently replaced (its `user_id` becomes `"u2"`), a new index entry is
added under `"u2"`, and the stale index entry under `"u1"` is left behind. -/
theorem connect_duplicate_counterexample :
    (lookupA c3After.active_connections "c1").map Client.user_id = some (some "u2") ∧
    idxLookup c3After.user_connections "u1" = ["c1"] ∧
    idxLookup c3After.user_connections "u2" = ["c1"] := by
  decide

/-- C3 (amended): `connect` never rejects a duplicate id and reports no
error. For every state — the id already registered or not — the call stores
the newly built client under `cid` in the primary map (its attributes are the
connect arguments) and only ever adds to the secondary indexes: every
pre-existing index entry survives, so a duplicate connect leaves the old
entry's registrations behind instead of replacing or erroring. -/
theorem connect_overwrites_duplicates (s : WebSocketManager) (w : Ws) (cid : String)
    (uid ct sid : Option String) (gs : List String) :
    (lookupA (connect s w cid uid ct sid gs).active_connections cid).map coreOk =
      some (cid, uid, ct, sid, dedupS gs, w.ok) ∧
    (∀ u y, y ∈ idxLookup s.user_connections u →
      y ∈ idxLookup (connect s w cid uid ct sid gs).user_connections u) ∧
    (∀ t y, y ∈ idxLookup s.scan_connections t →
      y ∈ idxLookup (connect s w cid uid ct sid gs).scan_connections t) ∧
    (∀ g y, y ∈ idxLookup s.group_connections g →
      y ∈ idxLookup (connect s w cid uid ct sid gs).group_connections g) := by
  have hw := postConnectSends_wsOnly
    { active_connections := insertA s.active_connections cid ⟨w, cid, uid, ct, sid, dedupS gs⟩
      user_connections := optIdxAdd s.user_connections uid cid
      scan_connections := optIdxAdd s.scan_connections sid cid
      group_connections := groupIdxAddAll s.group_connections (dedupS gs) cid } uid cid
  refine ⟨?_, ?_, ?_, ?_⟩
  · have h1 := hw.2.2.2 cid
    show (lookupA (postConnectSends _ uid cid).active_connections cid).map coreOk =
      some (cid, uid, ct, sid, dedupS gs, w.ok)
    rw [h1]
    show (lookupA (insertA s.active_connections cid ⟨w, cid, uid, ct, sid, dedupS gs⟩) cid).map
      coreOk = some (cid, uid, ct, sid, dedupS gs, w.ok)
    rw [lookupA_insertA, if_pos rfl]
    rfl
  · intro u y hy
    show y ∈ idxLookup (postConnectSends _ uid cid).user_connections u
    rw [hw.1]
    show y ∈ idxLookup (optIdxAdd s.user_connections uid cid) u
    rw [mem_optIdxAdd]
    exact Or.inl hy
  · intro t y hy
    show y ∈ idxLookup (postConnectSends _ uid cid).scan_connections t
    rw [hw.2.1]
    show y ∈ idxLookup (optIdxAdd s.scan_connections sid cid) t
    rw [mem_optIdxAdd]
    exact Or.inl hy
  · intro g y hy
    show y ∈ idxLookup (postConnectSends _ uid cid).group_connections g
    rw [hw.2.2.1]
    show y ∈ idxLookup (groupIdxAddAll s.group_connections (dedupS gs) cid) g
    rw [mem_groupIdxAddAll]
    exact Or.inl hy

/-- Witness for `connect_overwrites_duplicates` at the duplicate re-connect
of `c3Before`'s `"c1"`: the stored client now carries `user_id = "u2"` and
the old `"u1"` index entry survives. -/
theorem connect_overwrites_duplicates_witness :
    (lookupA (connect c3Before ⟨true, []⟩ "c1" (some "u2") none none []).active_connections
      "c1").map coreOk = some ("c1", some "u2", none, none, [], true) ∧
    "c1" ∈ idxLookup (connect c3Before ⟨true, []⟩ "c1" (some "u2") none none
      []).user_connections "u1" :=
  ⟨(connect_overwrites_duplicates c3Before ⟨true, []⟩ "c1" (some "u2") none none []).1,
   (connect_overwrites_duplicates c3Before ⟨true, []⟩ "c1" (some "u2") none none []).2.1
     "u1" "c1" (by decide)⟩

/-- C7 counterexample: a subscribe on a client id absent from the primary map
does not fail with `NotFound` — the handler in `websocket_endpoint` has no
such check and still mutates the shared `group_connections` of the global
manager through the captured client object, inserting a dangling index entry
for the gone connection. -/
theorem update_groups_missing_counterexample :
    lookupA initManager.active_connections "c1" = none ∧
    (routeSubscribeIdx initManager.group_connections "c1" [] ["g"]).1 = [("g", ["c1"])] := by
  decide

/-- C7 (amended): the subscribe path never raises `NotFound`. When the
connection is gone, the per-group loop still inserts the client id into
`by_group` (for every requested group not in the captured group set), leaving
a dangling index entry. When the connection is present, the single handler
invocation updates `Connection.groups` and the `by_group` index together: for
every newly requested group, the stored client's group set and the index both
reflect the change after the operation. -/
theorem update_groups_behavior (s : WebSocketManager) (cid : String) (c : Client)
    (gs : List String) (g : String)
    (hc : lookupA s.active_connections cid = some c) (hg : g ∈ gs) (hng : g ∉ c.groups) :
    (∃ c2, lookupA (subscribeStep s cid gs).active_connections cid = some c2 ∧
      g ∈ c2.groups) ∧
    cid ∈ idxLookup (subscribeStep s cid gs).group_connections g ∧
    (∀ (m : List (String × List String)) (cg : List String), g ∉ cg →
      cid ∈ idxLookup (routeSubscribeIdx m cid cg gs).1 g) := by
  refine ⟨?_, ?_, ?_⟩
  · unfold subscribeStep
    simp only [hc]
    set r := routeSubscribeIdx s.group_connections cid c.groups gs with hrdef
    rw [ex_of_coreOk_eq (send_to_client_wsOnly _ cid _) cid (fun _ _ gr => g ∈ gr)]
    refine ⟨{ c with groups := r.2 }, ?_, ?_⟩
    · show lookupA (updateAt s.active_connections cid (fun c0 => { c0 with groups := r.2 }))
        cid = some { c with groups := r.2 }
      rw [lookupA_updateAt, if_pos rfl, hc]
      rfl
    · show g ∈ r.2
      rw [hrdef, routeSub_cg_mem]
      exact Or.inr hg
  · unfold subscribeStep
    simp only [hc]
    set r := routeSubscribeIdx s.group_connections cid c.groups gs with hrdef
    have hw := send_to_client_wsOnly
      { s with
        group_connections := r.1
        active_connections := updateAt s.active_connections cid
          (fun c0 => { c0 with groups := r.2 }) } cid (Msg.subscriptionUpdated r.2)
    rw [hw.2.2.1]
    show cid ∈ idxLookup r.1 g
    rw [hrdef, routeSub_idx_mem]
    exact Or.inr ⟨rfl, hg, hng⟩
  · intro m cg hcg
    rw [routeSub_idx_mem]
    exact Or.inr ⟨rfl, hg, hcg⟩

/-- The client stored for the witness of `update_groups_behavior`. -/
def liveClient : Client :=
  ⟨⟨true, []⟩, "c1", none, none, none, []⟩

/-- Registry with the single live connection `"c1"` holding no groups. -/
def liveState : WebSocketManager :=
  ⟨[("c1", liveClient)], [], [], []⟩

/-- Witness for `update_groups_behavior`: subscribing the live `"c1"` to
`"g"` updates both its group set and the index, and the dangling-insert
conclusion instantiates at the empty index with empty captured groups. -/
theorem update_groups_behavior_witness :
    (∃ c2, lookupA (subscribeStep liveState "c1" ["g"]).active_connections "c1" = some c2 ∧
      "g" ∈ c2.groups) ∧
    "c1" ∈ idxLookup (subscribeStep liveState "c1" ["g"]).group_connections "g" ∧
    (∀ (m : List (String × List String)) (cg : List String), "g" ∉ cg →
      "c1" ∈ idxLookup (routeSubscribeIdx m "c1" cg ["g"]).1 "g") :=
  update_groups_behavior liveState "c1" liveClient ["g"] "g" (by decide) (by decide) (by decide)

/-- C9: malformed-frame tolerance. For every registered connection with a
live transport, a frame that fails JSON parsing is answered with exactly one
`error` notification to that same connection (no other connection's transport
log changes), the connection stays registered with its client record intact
and every secondary index untouched, and a subsequent valid `ping` frame from
it is answered with a `pong`. -/
theorem malformed_frame_tolerated (s : WebSocketManager) (cid : String) (c : Client)
    (hc : lookupA s.active_connections cid = some c) (hok : c.ws.ok = true) :
    (handleFrame s cid Frame.malformed).user_connections = s.user_connections ∧
    (handleFrame s cid Frame.malformed).scan_connections = s.scan_connections ∧
    (handleFrame s cid Frame.malformed).group_connections = s.group_connections ∧
    lookupA (handleFrame s cid Frame.malformed).active_connections cid =
      some { c with ws := { c.ws with
        sent := c.ws.sent ++ [Msg.error "Invalid JSON format"] } } ∧
    (∀ x, x ≠ cid → lookupA (handleFrame s cid Frame.malformed).active_connections x =
      lookupA s.active_connections x) ∧
    sentOf (handleFrame (handleFrame s cid Frame.malformed) cid Frame.ping) cid =
      c.ws.sent ++ [Msg.error "Invalid JSON format", Msg.pong] := by
  have hws : (wsSend c.ws (Msg.error "Invalid JSON format")).2 =
      { c.ws with sent := c.ws.sent ++ [Msg.error "Invalid JSON format"] } := by
    simp [wsSend, hok]
  have hw := send_to_client_wsOnly s cid (Msg.error "Invalid JSON format")
  have hlook : lookupA (handleFrame s cid Frame.malformed).active_connections cid =
      some { c with ws := { c.ws with
        sent := c.ws.sent ++ [Msg.error "Invalid JSON format"] } } := by
    show lookupA (send_to_client s cid (Msg.error "Invalid JSON format")).1.active_connections
      cid = _
    unfold send_to_client
    simp only [hc]
    rw [lookupA_insertA, if_pos rfl, hws]
  refine ⟨hw.1, hw.2.1, hw.2.2.1, hlook, ?_, ?_⟩
  · intro x hx
    show lookupA (send_to_client s cid (Msg.error "Invalid JSON format")).1.active_connections
      x = lookupA s.active_connections x
    unfold send_to_client
    simp only [hc]
    rw [lookupA_insertA, if_neg hx]
  · show sentOf (send_to_client (handleFrame s cid Frame.malformed) cid Msg.pong).1 cid =
      c.ws.sent ++ [Msg.error "Invalid JSON format", Msg.pong]
    unfold send_to_client
    rw [hlook]
    simp only []
    unfold sentOf
    rw [lookupA_insertA, if_pos rfl]
    simp [wsSend, hok]

/-- Witness for `malformed_frame_tolerated` on a one-connection registry with
a live transport. -/
theorem malformed_frame_tolerated_witness :
    (handleFrame liveState "c1" Frame.malformed).user_connections = liveState.user_connections ∧
    (handleFrame liveState "c1" Frame.malformed).scan_connections = liveState.scan_connections ∧
    (handleFrame liveState "c1" Frame.malformed).group_connections =
      liveState.group_connections ∧
    lookupA (handleFrame liveState "c1" Frame.malformed).active_connections "c1" =
      some { liveClient with ws := { liveClient.ws with
        sent := liveClient.ws.sent ++ [Msg.error "Invalid JSON format"] } } ∧
    (∀ x, x ≠ "c1" →
      lookupA (handleFrame liveState "c1" Frame.malformed).active_connections x =
        lookupA liveState.active_connections x) ∧
    sentOf (handleFrame (handleFrame liveState "c1" Frame.malformed) "c1" Frame.ping) "c1" =
      liveClient.ws.sent ++ [Msg.error "Invalid JSON format", Msg.pong] :=
  malformed_frame_tolerated liveState "c1" liveClient (by decide) rfl
